import Mathlib

/-- Characters treated as whitespace by Python's `str.strip` and by the
regular expression `\s` (ASCII range). -/
def pySpace (c : Char) : Bool :=
  c = ' ' || c = '\t' || c = '\n' || c = '\x0d' || c = '\x0b' || c = '\x0c'

/-- Python `str.strip()` on a character list: drop whitespace from both ends. -/
def pyStripList (l : List Char) : List Char :=
  ((l.dropWhile pySpace).reverse.dropWhile pySpace).reverse

/-- Python `str.strip()` on strings. -/
def pyStripStr (s : String) : String :=
  String.mk (pyStripList s.data)

/-- Replacement of every maximal run of whitespace by a single space:
the substitution `_WS_RE.sub(" ", s)` with `_WS_RE = re.compile(r"\s+")`.
`pending` records whether the scanner is inside a whitespace run. -/
def collapseWSAux : Bool → List Char → List Char
  | _, [] => []
  | inRun, c :: cs =>
    if pySpace c then
      if inRun then collapseWSAux true cs else ' ' :: collapseWSAux true cs
    else c :: collapseWSAux false cs

/-- Collapse internal whitespace runs to single spaces. -/
def collapseWS (l : List Char) : List Char :=
  collapseWSAux false l

/-- The normalizer `_norm` of `history_repo_orm.py`:
`s.strip().lower()` followed by `_WS_RE.sub(" ", s)`. -/
def _norm (s : String) : String :=
  String.mk (collapseWS ((pyStripList s.data).map Char.toLower))

/-- The deduplication-key base string of `compute_query_hash`:
`f"{_norm(db_fingerprint)}|{_norm(user_query)}|{_norm(sql)}"`. -/
def queryHashBase (db_fingerprint user_query sql : String) : String :=
  _norm db_fingerprint ++ "|" ++ _norm user_query ++ "|" ++ _norm sql

/-- The function `compute_query_hash` of `history_repo_orm.py`.  The SHA-256
hex digest is an external library call, abstracted as an arbitrary function
`sha256hex : String → String` applied to the normalized base string. -/
def compute_query_hash (sha256hex : String → String)
    (db_fingerprint user_query sql : String) : String :=
  sha256hex (queryHashBase db_fingerprint user_query sql)

/-! ## History store (`DB/models.py`, `HistoryRepoORM.upsert_success`) -/

/-- One row of the `query_history` table (`RagQueryHistory` in
`DB/models.py`).  Timestamps are abstract clock values (`Nat`); the row id is
the UUID rendered as a string. -/
structure HistoryRow where
  id : String
  db_fingerprint : String
  user_query : String
  sql : String
  tables_used : Option (List String)
  duration_ms : Option Int
  rows_count : Option Int
  created_at : Nat
  last_seen_at : Nat
  hit_count : Nat
  query_hash : String
deriving DecidableEq

/-- The row inserted by `upsert_success` when no row with the computed
`query_hash` exists: `hit_count` starts at its server default 1 and both
timestamps take the transaction time (`func.now()` server defaults). -/
def freshHistoryRow (newId db_fingerprint user_query sql : String)
    (tables_used : Option (List String)) (duration_ms rows_count : Option Int)
    (now : Nat) (qh : String) : HistoryRow :=
  { id := newId
    db_fingerprint := db_fingerprint
    user_query := user_query
    sql := sql
    tables_used := tables_used
    duration_ms := duration_ms
    rows_count := rows_count
    created_at := now
    last_seen_at := now
    hit_count := 1
    query_hash := qh }

/-- The `on_conflict_do_update` SET clause of `upsert_success`: refresh
`last_seen_at` to the excluded row's server default (the current time),
increment `hit_count`, and overwrite `duration_ms`, `rows_count` and
`tables_used` with the latest observed values.  All other columns keep their
stored values. -/
def conflictUpdate (r : HistoryRow) (tables_used : Option (List String))
    (duration_ms rows_count : Option Int) (now : Nat) : HistoryRow :=
  { r with
    last_seen_at := now
    hit_count := r.hit_count + 1
    duration_ms := duration_ms
    rows_count := rows_count
    tables_used := tables_used }

/-- The method `HistoryRepoORM.upsert_success`.  The store is the list of
rows of `query_history`; `sha256hex` abstracts the digest, `now` the
transaction clock, `newId` the freshly drawn `uuid.uuid4()`.  The INSERT
... ON CONFLICT (query_hash) DO UPDATE ... RETURNING statement updates the
conflicting row when one exists and inserts a fresh row otherwise, returning
the affected row. -/
def upsert_success (sha256hex : String → String) (store : List HistoryRow)
    (now : Nat) (newId : String) (db_fingerprint user_query sql : String)
    (tables_used : Option (List String)) (duration_ms rows_count : Option Int) :
    List HistoryRow × HistoryRow :=
  let qh := compute_query_hash sha256hex db_fingerprint user_query sql
  match store.find? (fun r => r.query_hash = qh) with
  | some r =>
    (store.map (fun s =>
        if s.query_hash = qh then conflictUpdate s tables_used duration_ms rows_count now else s),
     conflictUpdate r tables_used duration_ms rows_count now)
  | none =>
    let fresh := freshHistoryRow newId db_fingerprint user_query sql
      tables_used duration_ms rows_count now qh
    (store ++ [fresh], fresh)

/-! ## Schema query resolver (`ragdbservice/schema_rag_service.py`) -/

/-- The dynamic `analysis` payload consumed by `_pick_query_text`.  Absent
keys are modelled by their falsy defaults (`analysis.get(...) or []`, and a
missing or empty `intent` string are indistinguishable to the code).
Entities are `(type, value)` pairs. -/
structure Analysis where
  search_queries : List String := []
  intent : String := ""
  keywords : List String := []
  entities : List (String × String) := []
deriving DecidableEq

/-- The function `_pick_query_text`: first element of `search_queries` when
non-empty, otherwise the ` | `-join of the non-empty parts built from
`intent`, the space-joined `keywords` and the `type:value` rendering of
`entities`, finally stripped. -/
def _pick_query_text (a : Analysis) : String :=
  match a.search_queries with
  | q :: _ => q
  | [] =>
    let parts : List String :=
      (if a.intent ≠ "" then [a.intent] else []) ++
      (if a.keywords ≠ [] then [String.intercalate " " a.keywords] else []) ++
      (if a.entities ≠ [] then
        [String.intercalate " " (a.entities.map (fun e => e.1 ++ ":" ++ e.2))]
       else [])
    pyStripStr (String.intercalate " | " (parts.filter (fun p => p ≠ "")))

/-- Metadata tags of one retrieval unit, as stored with every chunk and as
returned by the vector index.  A key absent from the Python dict is the
empty string (both are falsy, and the code only tests truthiness). -/
structure ChunkMeta where
  chunk_type : String := ""
  schema_name : String := ""
  table_name : String := ""
  column_name : String := ""
  from_schema : String := ""
  from_table : String := ""
  from_column : String := ""
  to_schema : String := ""
  to_table : String := ""
  to_column : String := ""
  constraint_name : String := ""
deriving DecidableEq

/-- The function `_table_fq_from_meta`: prefer `schema_name`/`table_name`,
fall back to the foreign-key source endpoint `from_schema`/`from_table`. -/
def _table_fq_from_meta (m : ChunkMeta) : Option String :=
  if m.schema_name ≠ "" ∧ m.table_name ≠ "" then
    some (m.schema_name ++ "." ++ m.table_name)
  else if m.from_schema ≠ "" ∧ m.from_table ≠ "" then
    some (m.from_schema ++ "." ++ m.from_table)
  else none

/-- Order-preserving deduplication (the set built by the resolver before
sorting); `seen` accumulates the identifiers already kept. -/
def dedupAux (seen : List String) : List String → List String
  | [] => []
  | x :: xs =>
    if seen.contains x then dedupAux seen xs
    else x :: dedupAux (x :: seen) xs

/-- Deduplicate a list of strings keeping first occurrences. -/
def dedupStr (l : List String) : List String :=
  dedupAux [] l

/-- Insert a string into an ascending list (Python `sorted` on strings).
Strings are compared lexicographically on their character lists, the same
order as `String.lt`. -/
def insertStrAsc (x : String) : List String → List String
  | [] => [x]
  | y :: ys => if y.data < x.data then y :: insertStrAsc x ys else x :: y :: ys

/-- Ascending insertion sort on strings, the model of Python `sorted`. -/
def sortStrAsc : List String → List String
  | [] => []
  | x :: xs => insertStrAsc x (sortStrAsc xs)

/-- One edge of the authoritative foreign-key list assembled by
`build_schema_context_from_db`; the Python dict keys `from` / `to` hold the
fully-qualified endpoint tables. -/
structure FkEdge where
  «from» : String := ""
  from_column : String := ""
  «to» : String := ""
  to_column : String := ""
  constraint : String := ""
deriving DecidableEq

/-- The authoritative schema context returned by
`build_schema_context_from_db`: a fully-qualified-name-keyed table map
(modelled as an association list, generic in the table payload `T`) and the
flat foreign-key list. -/
structure SchemaCtx (T : Type) where
  tables : List (String × T)
  foreign_keys : List FkEdge

/-- The result record of `SchemaRagService.query_schema` (`QueryResult`). -/
structure QueryResult (T : Type) where
  tables : List (String × T)
  foreign_keys : List FkEdge
  matched_tables : List String
  query_text : String

/-- The method `SchemaRagService.query_schema` of a started service.  The
vector index's `collection.query` is the oracle `vq`, mapping the query text
and `top_k` to the metadata of the returned units; `full` is the authoritative
context freshly re-fetched by `build_schema_context_from_db`.  Empty query
text and empty matched set short-circuit to empty results; otherwise the
table map is filtered to the matched tables present in `full` and the
foreign keys to edges touching that filtered map. -/
def query_schema {T : Type} (vq : String → Nat → List ChunkMeta)
    (full : SchemaCtx T) (analysis : Analysis) (top_k : Nat) : QueryResult T :=
  let query_text := _pick_query_text analysis
  if query_text = "" then
    { tables := [], foreign_keys := [], matched_tables := [], query_text := "" }
  else
    let metas := vq query_text top_k
    let matched_tables := sortStrAsc (dedupStr (metas.filterMap _table_fq_from_meta))
    if matched_tables = [] then
      { tables := [], foreign_keys := [], matched_tables := [], query_text := query_text }
    else
      let filtered_tables := matched_tables.filterMap
        (fun fq => (full.tables.lookup fq).map (fun v => (fq, v)))
      let filtered_fks := full.foreign_keys.filter
        (fun fk => filtered_tables.any (fun p => p.1 = fk.«from») ||
                   filtered_tables.any (fun p => p.1 = fk.«to»))
      { tables := filtered_tables
        foreign_keys := filtered_fks
        matched_tables := matched_tables
        query_text := query_text }

/-! ## History retrieval and re-ranking (`ragdbservice/history_rag_service.py`) -/

/-- The helper `_tables_overlap`: `|set(a) ∩ set(b)| / max(1, |set(a)|)` as a
rational, zero when either argument is missing or empty.  Machine floats are
idealized as rationals. -/
def _tables_overlap (a : Option (List String)) (b : List String) : ℚ :=
  match a with
  | none => 0
  | some a =>
    if a = [] ∨ b = [] then 0
    else ((a.dedup.filter (fun x => decide (x ∈ b))).length : ℚ) /
         (max 1 a.dedup.length : ℚ)

/-- Round-half-to-even on rationals, the idealization of Python's `round`
for the exactly representable case. -/
def roundHalfEven (x : ℚ) : ℤ :=
  if x - (⌊x⌋ : ℚ) < 1 / 2 then ⌊x⌋
  else if 1 / 2 < x - (⌊x⌋ : ℚ) then ⌊x⌋ + 1
  else if Even ⌊x⌋ then ⌊x⌋ else ⌊x⌋ + 1

/-- Python `round(x, 4)`: round half to even at four decimal places. -/
def round4 (x : ℚ) : ℚ :=
  (roundHalfEven (x * 10000) : ℚ) / 10000

/-- The result record `HistoryMatch` of `history_rag_service.py`; `score` is
kept as a rational and `created_at` as the abstract clock value whose ISO
rendering the service returns. -/
structure HistoryMatch where
  score : ℚ
  history_id : String
  user_query : String
  sql : String
  tables_used : Option (List String)
  created_at : Nat
  hit_count : Nat
  duration_ms : Option Int
  rows_count : Option Int
deriving DecidableEq

/-- The scoring loop of `HistoryRagService.search`: pair the prefetched ids
with their distances, drop ids missing from the repository lookup, convert
distance to `1 - distance` and add the table-overlap boost when the resolver
produced matched tables. -/
def searchScored (ids : List String) (dists : List ℚ)
    (rows_map : List (String × HistoryRow)) (tables_filter : List String)
    (table_boost : ℚ) : List (ℚ × HistoryRow) :=
  (ids.zip dists).filterMap (fun p =>
    (rows_map.lookup p.1).map (fun row =>
      let base := 1 - p.2
      (if tables_filter ≠ [] then
        base + table_boost * _tables_overlap row.tables_used tables_filter
       else base, row)))

/-- Stable descending insertion: place `x` after every already-placed
candidate with a strictly larger score and before every candidate with an
equal or smaller one, so that equal scores keep their original order. -/
def insertScoreDesc (x : ℚ × HistoryRow) :
    List (ℚ × HistoryRow) → List (ℚ × HistoryRow)
  | [] => [x]
  | y :: ys => if x.1 < y.1 then y :: insertScoreDesc x ys else x :: y :: ys

/-- Stable descending sort by score, the model of Python's stable
`list.sort(key=score, reverse=True)`. -/
def sortScoreDesc : List (ℚ × HistoryRow) → List (ℚ × HistoryRow)
  | [] => []
  | x :: xs => insertScoreDesc x (sortScoreDesc xs)

/-- Packaging of one scored row as a `HistoryMatch`: the score is rounded to
four decimal places and a zero `hit_count` is reported as 1
(`row.hit_count or 1`). -/
def mkHistoryMatch (p : ℚ × HistoryRow) : HistoryMatch :=
  { score := round4 p.1
    history_id := p.2.id
    user_query := p.2.user_query
    sql := p.2.sql
    tables_used := p.2.tables_used
    created_at := p.2.created_at
    hit_count := if p.2.hit_count = 0 then 1 else p.2.hit_count
    duration_ms := p.2.duration_ms
    rows_count := p.2.rows_count }

/-- The ranking core of `HistoryRagService.search` after the vector-index
prefetch: empty prefetch returns no matches, otherwise score, sort stably by
descending score, truncate to `top_k` and round the reported scores. -/
def historySearch (ids : List String) (dists : List ℚ)
    (rows_map : List (String × HistoryRow)) (tables_filter : List String)
    (top_k : Nat) (table_boost : ℚ) : List HistoryMatch :=
  if ids = [] then []
  else
    ((sortScoreDesc (searchScored ids dists rows_map tables_filter table_boost)).take
        top_k).map mkHistoryMatch

/-! ## Chunk synthesis (`DB/build_vector_store.py`) -/

/-- Modelled from the spec: the `Section` record consumed by `build_chunks`
is produced outside the files under version control here; §3 of the
specification defines it as a normalized query result with a name, ordered
column labels and rows of string cells (`_fetch_section` renders NULL cells
as the empty string). -/
structure Section where
  name : String := ""
  columns : List String := []
  rows : List (List String) := []
deriving DecidableEq

/-- Modelled from the spec: the cell accessor `safe_get` used by
`build_chunks` is not among the sources; per the `Section` invariant (row
length equals column-label count) it reads the cell at the given index,
out-of-range reads yielding the empty string. -/
def safe_get (r : List String) (i : Nat) : String :=
  r.getD i ""

/-- Lookup in the dict `{name: idx for idx, name in enumerate(columns)}` with
a default index: the index of the last occurrence of the label, or the
default when the label is absent. -/
def colmapGet (columns : List String) (key : String) (dflt : Nat) : Nat :=
  match (columns.enum.filter (fun p => p.2 = key)).getLast? with
  | some p => p.1
  | none => dflt

/-- The five introspection sections handed to `build_chunks`
(`sections.get(...)` for each fixed key; a missing key is `none`). -/
structure Sections where
  tables : Option Section := none
  columns : Option Section := none
  table_comments : Option Section := none
  column_comments : Option Section := none
  foreign_keys : Option Section := none

/-- Rows of the `table_comments` section as (schema, table, description)
triples, in section order. -/
def tableCommentRows (secs : Sections) : List (String × String × String) :=
  match secs.table_comments with
  | none => []
  | some sec =>
    sec.rows.map (fun r =>
      (safe_get r (colmapGet sec.columns "schema_name" 0),
       safe_get r (colmapGet sec.columns "table_name" 1),
       safe_get r (colmapGet sec.columns "table_description" 2)))

/-- The lookup `table_desc.get((schema, table), "")`: the dict is filled in
row order with later rows overwriting earlier ones, so the value is the last
matching row's description. -/
def tableDescGet (secs : Sections) (schema table : String) : String :=
  (((tableCommentRows secs).filter
      (fun p => p.1 = schema ∧ p.2.1 = table)).map (fun p => p.2.2)).getLastD ""

/-- Rows of the `column_comments` section as
(schema, table, column, description) tuples, in section order. -/
def columnCommentRows (secs : Sections) :
    List (String × String × String × String) :=
  match secs.column_comments with
  | none => []
  | some sec =>
    sec.rows.map (fun r =>
      (safe_get r (colmapGet sec.columns "schema_name" 0),
       safe_get r (colmapGet sec.columns "table_name" 1),
       safe_get r (colmapGet sec.columns "column_name" 2),
       safe_get r (colmapGet sec.columns "column_description" 3)))

/-- The lookup `col_desc.get((schema, table, col), "")`, last write wins. -/
def colDescGet (secs : Sections) (schema table col : String) : String :=
  (((columnCommentRows secs).filter
      (fun p => p.1 = schema ∧ p.2.1 = table ∧ p.2.2.1 = col)).map
    (fun p => p.2.2.2)).getLastD ""

/-- One entry of `cols_by_table`: the per-column dict built from a `columns`
section row, with the column description already joined in. -/
structure ColEntry where
  column_name : String := ""
  data_type : String := ""
  is_nullable : String := ""
  column_default : String := ""
  column_description : String := ""
deriving DecidableEq

/-- All rows of the `columns` section keyed by (schema, table), in section
order; `cols_by_table` groups these by key with appends, so the group of a
key is exactly the key-filtered sublist. -/
def colEntries (secs : Sections) : List ((String × String) × ColEntry) :=
  match secs.columns with
  | none => []
  | some sec =>
    sec.rows.map (fun r =>
      let schema := safe_get r (colmapGet sec.columns "table_schema" 0)
      let table := safe_get r (colmapGet sec.columns "table_name" 1)
      let col := safe_get r (colmapGet sec.columns "column_name" 3)
      ((schema, table),
       { column_name := col
         data_type := safe_get r (colmapGet sec.columns "data_type" 4)
         is_nullable := safe_get r (colmapGet sec.columns "is_nullable" 5)
         column_default := safe_get r (colmapGet sec.columns "column_default" 6)
         column_description := colDescGet secs schema table col }))

/-- The group `cols_by_table.get((schema, table), [])`. -/
def colsFor (secs : Sections) (schema table : String) : List ColEntry :=
  ((colEntries secs).filter (fun p => p.1 = (schema, table))).map (fun p => p.2)

/-- One parsed row of the `foreign_keys` section. -/
structure FkRow where
  from_schema : String := ""
  from_table : String := ""
  from_column : String := ""
  to_schema : String := ""
  to_table : String := ""
  to_column : String := ""
  constraint_name : String := ""
deriving DecidableEq

/-- All rows of the `foreign_keys` section, in section order. -/
def fkRows (secs : Sections) : List FkRow :=
  match secs.foreign_keys with
  | none => []
  | some sec =>
    sec.rows.map (fun r =>
      { from_schema := safe_get r (colmapGet sec.columns "from_schema" 0)
        from_table := safe_get r (colmapGet sec.columns "from_table" 1)
        from_column := safe_get r (colmapGet sec.columns "from_column" 2)
        to_schema := safe_get r (colmapGet sec.columns "to_schema" 3)
        to_table := safe_get r (colmapGet sec.columns "to_table" 4)
        to_column := safe_get r (colmapGet sec.columns "to_column" 5)
        constraint_name := safe_get r (colmapGet sec.columns "constraint_name" 6) })

/-- The group `fks_by_table.get((schema, table), [])` of outgoing foreign
keys (grouped on the source side, appends in section order). -/
def fksFor (secs : Sections) (schema table : String) : List FkRow :=
  (fkRows secs).filter (fun f => f.from_schema = schema ∧ f.from_table = table)

/-- A retrieval unit: text plus metadata tags. -/
abbrev Chunk : Type := String × ChunkMeta

/-- The row-level fk chunk emitted for one foreign-key row. -/
def fkChunk (f : FkRow) : Chunk :=
  ("Foreign key " ++ f.constraint_name ++ ": " ++ f.from_schema ++ "." ++
     f.from_table ++ "." ++ f.from_column ++ " -> " ++ f.to_schema ++ "." ++
     f.to_table ++ "." ++ f.to_column,
   { chunk_type := "fk"
     from_schema := f.from_schema
     from_table := f.from_table
     from_column := f.from_column
     to_schema := f.to_schema
     to_table := f.to_table
     to_column := f.to_column
     constraint_name := f.constraint_name })

/-- Lexicographic insertion for (schema, table) pairs, used by the fallback
`sorted(cols_by_table.keys())`. -/
def insertPairAsc (x : String × String) :
    List (String × String) → List (String × String)
  | [] => [x]
  | y :: ys =>
    if y.1.data < x.1.data ∨ (y.1 = x.1 ∧ y.2.data < x.2.data) then
      y :: insertPairAsc x ys
    else x :: y :: ys

/-- Lexicographic sort of (schema, table) pairs (Python `sorted` on tuples). -/
def sortPairsAsc : List (String × String) → List (String × String)
  | [] => []
  | x :: xs => insertPairAsc x (sortPairsAsc xs)

/-- The table universe `table_list`: the rows of the `tables` section when
present, otherwise the sorted key set of `cols_by_table` (keys in first-insert
order, deduplicated, then sorted). -/
def tableList (secs : Sections) : List (String × String) :=
  match secs.tables with
  | some sec =>
    sec.rows.map (fun r =>
      (safe_get r (colmapGet sec.columns "table_schema" 0),
       safe_get r (colmapGet sec.columns "table_name" 1)))
  | none =>
    sortPairsAsc (((colEntries secs).map (fun p => p.1)).eraseDups)

/-- The text of one column chunk:
`Column <schema>.<table>.<column> type=... nullable=... default=...` with a
falsy default rendered as `NULL` and an optional description suffix. -/
def colChunkText (schema table : String) (c : ColEntry) : String :=
  "Column " ++ schema ++ "." ++ table ++ "." ++ c.column_name ++
    " type=" ++ c.data_type ++ " nullable=" ++ c.is_nullable ++
    " default=" ++ (if c.column_default = "" then "NULL" else c.column_default) ++
    (if c.column_description = "" then ""
     else " description=" ++ c.column_description)

/-- One column chunk (text plus tags). -/
def colChunk (schema table : String) (c : ColEntry) : Chunk :=
  (colChunkText schema table c,
   { chunk_type := "column"
     schema_name := schema
     table_name := table
     column_name := c.column_name })

/-- One `- name (type)[: description]` line of a table summary. -/
def summaryColLine (c : ColEntry) : String :=
  "- " ++ c.column_name ++ " (" ++ c.data_type ++ ")" ++
    (if c.column_description = "" then "" else ": " ++ c.column_description)

/-- One `- constraint: src -> dst` line of a table summary. -/
def summaryFkLine (schema table : String) (f : FkRow) : String :=
  "- " ++ f.constraint_name ++ ": " ++ schema ++ "." ++ table ++ "." ++
    f.from_column ++ " -> " ++ f.to_schema ++ "." ++ f.to_table ++ "." ++
    f.to_column

/-- The `summary_parts` list of one table summary: a header, the description
line (with the explicit `(none)` marker), the first 25 column lines and the
first 30 foreign-key lines, with placeholder lines for empty groups. -/
def tableSummaryParts (schema table desc : String) (cols : List ColEntry)
    (fks : List FkRow) : List String :=
  let col_lines := (cols.take 25).map summaryColLine
  let fk_lines := (fks.take 30).map (summaryFkLine schema table)
  ["TABLE " ++ schema ++ "." ++ table,
   if desc = "" then "Description: (none)" else "Description: " ++ desc,
   "Columns:"] ++
  (if col_lines = [] then ["(no columns found)"] else col_lines) ++
  ["Foreign keys:"] ++
  (if fk_lines = [] then ["(no foreign keys found)"] else fk_lines)

/-- The table-summary chunk of one table. -/
def summaryChunk (secs : Sections) (schema table : String) : Chunk :=
  (String.intercalate "\n"
     (tableSummaryParts schema table (tableDescGet secs schema table)
       (colsFor secs schema table) (fksFor secs schema table)),
   { chunk_type := "table_summary", schema_name := schema, table_name := table })

/-- The chunks emitted for one table of `table_list`: a table-comment chunk
when the description is non-empty, one column chunk per grouped column row,
and exactly one table-summary chunk. -/
def perTableChunks (secs : Sections) (st : String × String) : List Chunk :=
  let schema := st.1
  let table := st.2
  let desc := tableDescGet secs schema table
  (if desc = "" then ([] : List Chunk)
   else [(("Table " ++ schema ++ "." ++ table ++ " description: " ++ desc,
          { chunk_type := "table_comment", schema_name := schema,
            table_name := table }) : Chunk)]) ++
  (colsFor secs schema table).map (colChunk schema table) ++
  [summaryChunk secs schema table]

/-- The function `build_chunks`: all fk chunks in foreign-key section order,
followed by the per-table chunks in `table_list` order. -/
def build_chunks (secs : Sections) : List Chunk :=
  ((fkRows secs).map fkChunk) ++ ((tableList secs).flatMap (perTableChunks secs))

/-! ## Vector store persistence (`save_to_chroma`) -/

/-- A persistent collection: id-keyed entries, each holding one chunk
(document text plus metadata; the embedding is a function of the text and is
not modelled separately). -/
abbrev Collection : Type := List (String × Chunk)

/-- Upsert of a single (id, chunk) pair: replace the entry when the id is
already present, append it otherwise. -/
def upsertOne (coll : Collection) (id : String) (c : Chunk) : Collection :=
  if coll.any (fun p => p.1 = id) then
    coll.map (fun p => if p.1 = id then (id, c) else p)
  else coll ++ [(id, c)]

/-- Upsert of a batch of (id, chunk) pairs, in order. -/
def upsertMany (coll : Collection) (pairs : List (String × Chunk)) : Collection :=
  pairs.foldl (fun acc p => upsertOne acc p.1 p.2) coll

/-- Fuel-indexed slicing into batches of `sz`; the fuel is an upper bound on
the number of slices, making the recursion structural. -/
def splitBatchesAux (sz : Nat) : Nat → List (String × Chunk) → List (List (String × Chunk))
  | 0, _ => []
  | _, [] => []
  | Nat.succ fuel, x :: xs =>
    (x :: xs).take sz :: splitBatchesAux sz fuel ((x :: xs).drop sz)

/-- The batching loop `for start in range(0, len(texts), batch_size)` of
`save_to_chroma`, slicing the zipped payload into batches of 50. -/
def splitBatches (pairs : List (String × Chunk)) : List (List (String × Chunk)) :=
  splitBatchesAux 50 pairs.length pairs

/-- The function `save_to_chroma`: pair each chunk with its id (the source
draws `ids = [str(uuid.uuid4()) for _ in chunks]`, modelled by the explicit
`ids` argument) and upsert the pairs into the collection in batches of 50. -/
def save_to_chroma (coll : Collection) (ids : List String)
    (chunks : List Chunk) : Collection :=
  (splitBatches (ids.zip chunks)).foldl upsertMany coll

/-- The fallback parts of the claim's query-text policy, written from the
spec's words: the non-empty strings among the intent, the space-joined
keywords and the space-joined `type:value` rendering of the entities. -/
def specFallbackParts (a : Analysis) : List String :=
  [a.intent,
   String.intercalate " " a.keywords,
   String.intercalate " " (a.entities.map (fun e => e.1 ++ ":" ++ e.2))].filter
    (fun p => p ≠ "")

/-- A concrete oracle returning one column unit and one fk unit, as the index
would for a two-table schema. -/
def resolverOracle : String → Nat → List ChunkMeta := fun _ _ =>
  [{ chunk_type := "column", schema_name := "public", table_name := "users",
     column_name := "id" },
   { chunk_type := "fk", from_schema := "public", from_table := "orders",
     from_column := "user_id", to_schema := "public", to_table := "users",
     to_column := "id", constraint_name := "fk1" }]

/-- A concrete authoritative context with both tables and the single edge. -/
def resolverCtx : SchemaCtx Nat :=
  { tables := [("public.orders", 1), ("public.users", 2)]
    foreign_keys := [{ «from» := "public.orders", from_column := "user_id",
                       «to» := "public.users", to_column := "id",
                       constraint := "fk1" }] }

/-- A concrete analysis payload with an explicit search query. -/
def ordersAnalysis : Analysis := { search_queries := ["orders by customer"] }

/-- An oracle whose fk unit names a table that the authoritative metadata no
longer contains (stale index). -/
def staleOracle : String → Nat → List ChunkMeta := fun _ _ =>
  [{ chunk_type := "fk", from_schema := "a", from_table := "b", from_column := "x",
     to_schema := "c", to_table := "d", to_column := "y", constraint_name := "k" }]

/-- An authoritative context with an empty table map but one foreign key
touching the stale table. -/
def staleCtx : SchemaCtx Nat :=
  { tables := []
    foreign_keys := [{ «from» := "a.b", from_column := "x", «to» := "c.d",
                       to_column := "y", constraint := "k" }] }

/-- An analysis payload carrying a bare search query. -/
def qAnalysis : Analysis := { search_queries := ["q"] }

/-- A small concrete set of introspection sections: two tables, three
columns, one foreign key, one table comment. -/
def sampleSections : Sections :=
  { tables := some
      { name := "tables"
        columns := ["table_schema", "table_name"]
        rows := [["public", "orders"], ["public", "users"]] }
    columns := some
      { name := "columns"
        columns := ["table_schema", "table_name", "ordinal_position",
                    "column_name", "data_type", "is_nullable", "column_default"]
        rows := [["public", "users", "1", "id", "integer", "NO", ""],
                 ["public", "users", "2", "name", "text", "YES", ""],
                 ["public", "orders", "1", "id", "integer", "NO", ""]] }
    table_comments := some
      { name := "table_comments"
        columns := ["schema_name", "table_name", "table_description"]
        rows := [["public", "users", "People"]] }
    column_comments := some
      { name := "column_comments"
        columns := ["schema_name", "table_name", "column_name",
                    "column_description"]
        rows := [["public", "users", "id", "primary key"]] }
    foreign_keys := some
      { name := "foreign_keys"
        columns := ["from_schema", "from_table", "from_column", "to_schema",
                    "to_table", "to_column", "constraint_name"]
        rows := [["public", "orders", "user_id", "public", "users", "id",
                  "fk1"]] } }

/-- A one-table schema whose column section yields 40 columns and whose
foreign-key section yields 35 outgoing foreign keys. -/
def wideSections : Sections :=
  { tables := some
      { name := "tables"
        columns := ["table_schema", "table_name"]
        rows := [["s", "t"]] }
    columns := some
      { name := "columns"
        columns := ["table_schema", "table_name", "ordinal_position",
                    "column_name", "data_type", "is_nullable", "column_default"]
        rows := (List.range 40).map (fun i =>
          ["s", "t", toString (i + 1), "c" ++ toString i, "text", "YES", ""]) }
    table_comments := none
    column_comments := none
    foreign_keys := some
      { name := "foreign_keys"
        columns := ["from_schema", "from_table", "from_column", "to_schema",
                    "to_table", "to_column", "constraint_name"]
        rows := (List.range 35).map (fun i =>
          ["s", "t", "c" ++ toString i, "s", "t2", "id", "fk" ++ toString i]) } }

/-! ## History search scoring, spec side -/

/-- The claim's boost term, written from the spec's words: when the
candidate's `tables_used` set overlaps the matched tables, add
`table_boost * |intersection| / |tables_used|`, the denominator being the
cardinality of the candidate's own table set. -/
def specBoost (tables_used : Option (List String)) (matched : List String)
    (table_boost : ℚ) : ℚ :=
  let A := (tables_used.getD []).toFinset
  let B := matched.toFinset
  if (A ∩ B).Nonempty then table_boost * ((A ∩ B).card : ℚ) / (A.card : ℚ)
  else 0

/-- The claim's per-candidate scoring: base similarity `1 - distance` plus
the overlap boost. -/
def specSearchScored (ids : List String) (dists : List ℚ)
    (rows_map : List (String × HistoryRow)) (matched : List String)
    (table_boost : ℚ) : List (ℚ × HistoryRow) :=
  (ids.zip dists).filterMap (fun p =>
    (rows_map.lookup p.1).map (fun row =>
      (1 - p.2 + specBoost row.tables_used matched table_boost, row)))

/-- The claim's ranking pipeline: score, stable descending sort, top `top_k`,
scores rounded to four decimal places. -/
def specHistorySearch (ids : List String) (dists : List ℚ)
    (rows_map : List (String × HistoryRow)) (matched : List String)
    (top_k : Nat) (table_boost : ℚ) : List HistoryMatch :=
  if ids = [] then []
  else
    ((sortScoreDesc (specSearchScored ids dists rows_map matched
        table_boost)).take top_k).map mkHistoryMatch

/-- A stored history row whose tables overlap the resolver's matched set. -/
def sampleRow1 : HistoryRow :=
  { id := "h1", db_fingerprint := "db1", user_query := "top customers",
    sql := "SELECT 1", tables_used := some ["public.users"],
    duration_ms := none, rows_count := none, created_at := 0,
    last_seen_at := 0, hit_count := 1, query_hash := "q1" }

/-- A stored history row without recorded tables. -/
def sampleRow2 : HistoryRow :=
  { id := "h2", db_fingerprint := "db1", user_query := "all orders",
    sql := "SELECT 2", tables_used := none,
    duration_ms := none, rows_count := none, created_at := 0,
    last_seen_at := 0, hit_count := 1, query_hash := "q2" }

/-! ## Theorems -/

/-- C5: two (db_fingerprint, user_query, sql) triples whose components agree
after trimming, lowercasing and collapsing internal whitespace runs produce
the same `compute_query_hash`; and the hash is the digest of the three
normalized parts joined with the `|` separator. -/
theorem compute_query_hash_normalized (sha256hex : String → String)
    (db₁ uq₁ sql₁ db₂ uq₂ sql₂ : String)
    (hdb : _norm db₁ = _norm db₂) (huq : _norm uq₁ = _norm uq₂)
    (hsql : _norm sql₁ = _norm sql₂) :
    compute_query_hash sha256hex db₁ uq₁ sql₁ =
      compute_query_hash sha256hex db₂ uq₂ sql₂ ∧
    compute_query_hash sha256hex db₁ uq₁ sql₁ =
      sha256hex (_norm db₁ ++ "|" ++ _norm uq₁ ++ "|" ++ _norm sql₁) := by
  constructor
  · unfold compute_query_hash queryHashBase
    rw [hdb, huq, hsql]
  · rfl

/-- Witness for C5 at the spec's own example inputs: incidental whitespace
and case differences do not change the hash. -/
theorem compute_query_hash_normalized_witness :
    _norm " Select  *  FROM t " = _norm "SELECT * from t" ∧
    compute_query_hash (fun s => s) "db1 " " Select  *  FROM t " "x" =
      compute_query_hash (fun s => s) " DB1" "SELECT * from t" "X" :=
  ⟨by decide,
   (compute_query_hash_normalized (fun s => s) "db1 " " Select  *  FROM t " "x"
      " DB1" "SELECT * from t" "X" (by decide) (by decide) (by decide)).1⟩

/-- C7: an analysis payload with no `search_queries`, `intent`, `keywords` or
`entities` yields an empty query text and the empty resolver result, for
every vector-index oracle (the index is never consulted) and every
authoritative context, without raising any error. -/
theorem query_schema_empty_analysis {T : Type} (vq : String → Nat → List ChunkMeta)
    (full : SchemaCtx T) (a : Analysis) (top_k : Nat)
    (h1 : a.search_queries = []) (h2 : a.intent = "")
    (h3 : a.keywords = []) (h4 : a.entities = []) :
    _pick_query_text a = "" ∧
    query_schema vq full a top_k =
      { tables := [], foreign_keys := [], matched_tables := [], query_text := "" } := by
  obtain ⟨sq, it, kw, en⟩ := a
  simp only at h1 h2 h3 h4
  subst h1; subst h2; subst h3; subst h4
  exact ⟨rfl, rfl⟩

/-- Witness for C7: the all-empty analysis object against a junk-returning
oracle still produces the empty result. -/
theorem query_schema_empty_analysis_witness :
    _pick_query_text { : Analysis } = "" ∧
    query_schema (T := Unit)
      (fun _ _ => [{ chunk_type := "fk", from_schema := "a", from_table := "b" }])
      { tables := [("a.b", ())], foreign_keys := [] } { : Analysis } 30 =
      { tables := [], foreign_keys := [], matched_tables := [], query_text := "" } :=
  query_schema_empty_analysis
    (fun _ _ => [{ chunk_type := "fk", from_schema := "a", from_table := "b" }])
    { tables := [("a.b", ())], foreign_keys := [] } { : Analysis } 30
    rfl rfl rfl rfl

/-- Counterexample to C6 as stated: for an analysis whose `intent` is the
two-character string `" x"`, the code strips the joined fallback text, so the
returned query text `"x"` is not the plain ` | `-concatenation `" x"` of the
non-empty parts. -/
theorem pick_query_text_strip_counterexample :
    _pick_query_text { intent := " x" } = "x" ∧
    String.intercalate " | " (specFallbackParts { intent := " x" }) = " x" ∧
    _pick_query_text { intent := " x" } ≠
      String.intercalate " | " (specFallbackParts { intent := " x" }) := by
  refine ⟨by decide, by decide, by decide⟩

/-- C6 (amended): the resolver's query text is the first element of
`search_queries` when that list is non-empty; otherwise it is the ` | `-join
of the non-empty parts among intent, space-joined keywords and the
`type:value` rendering of the entities, stripped of leading and trailing
whitespace. -/
theorem pick_query_text_policy (a : Analysis) :
    (∀ q qs, a.search_queries = q :: qs → _pick_query_text a = q) ∧
    (a.search_queries = [] →
      _pick_query_text a =
        pyStripStr (String.intercalate " | " (specFallbackParts a))) := by
  obtain ⟨sq, it, kw, en⟩ := a
  constructor
  · intro q qs h
    simp only at h
    subst h
    rfl
  · intro h
    simp only at h
    subst h
    simp only [_pick_query_text, specFallbackParts]
    by_cases hit : it = "" <;> by_cases hkw : kw = [] <;> by_cases hen : en = [] <;>
      simp [hit, hkw, hen, String.intercalate, List.filter_cons]

/-- Witness for C6 at concrete inputs: both the explicit-query branch and the
fallback branch. -/
theorem pick_query_text_policy_witness :
    _pick_query_text { search_queries := ["orders by customer", "other"] } =
      "orders by customer" ∧
    _pick_query_text { intent := "find", keywords := ["a", "b"],
                       entities := [("t", "v")] } =
      pyStripStr (String.intercalate " | "
        (specFallbackParts { intent := "find", keywords := ["a", "b"],
                             entities := [("t", "v")] })) :=
  ⟨(pick_query_text_policy { search_queries := ["orders by customer", "other"] }).1
     "orders by customer" ["other"] rfl,
   (pick_query_text_policy { intent := "find", keywords := ["a", "b"],
                             entities := [("t", "v")] }).2 rfl⟩

/-- When no stored row carries the computed hash, `upsert_success` takes the
plain-insert path and appends a fresh row. -/
theorem upsert_success_insert_case (sha256hex : String → String)
    (store : List HistoryRow) (now : Nat) (newId db uq sql : String)
    (tb : Option (List String)) (d rc : Option Int)
    (h : ∀ r ∈ store, r.query_hash ≠ compute_query_hash sha256hex db uq sql) :
    upsert_success sha256hex store now newId db uq sql tb d rc =
      (store ++ [freshHistoryRow newId db uq sql tb d rc now
         (compute_query_hash sha256hex db uq sql)],
       freshHistoryRow newId db uq sql tb d rc now
         (compute_query_hash sha256hex db uq sql)) := by
  have hfind : store.find?
      (fun r => r.query_hash = compute_query_hash sha256hex db uq sql) = none := by
    rw [List.find?_eq_none]
    intro x hx
    simpa using h x hx
  simp only [upsert_success]
  rw [hfind]

/-- When `find?` locates a conflicting row, `upsert_success` takes the
ON CONFLICT path: it rewrites every row carrying the hash through
`conflictUpdate` and returns the updated located row. -/
theorem upsert_success_conflict_case (sha256hex : String → String)
    (store : List HistoryRow) (now : Nat) (newId db uq sql : String)
    (tb : Option (List String)) (d rc : Option Int) (r₀ : HistoryRow)
    (h : store.find?
      (fun r => r.query_hash = compute_query_hash sha256hex db uq sql) = some r₀) :
    upsert_success sha256hex store now newId db uq sql tb d rc =
      (store.map (fun s =>
         if s.query_hash = compute_query_hash sha256hex db uq sql then
           conflictUpdate s tb d rc now
         else s),
       conflictUpdate r₀ tb d rc now) := by
  simp only [upsert_success]
  rw [h]

/-- C1: two `upsert_success` calls whose raw inputs normalize identically
converge onto a single row.  Starting from a store holding no row with the
computed hash, after the second call the store holds exactly one row for the
hash; that row has `hit_count = 2`, keeps the first call's `created_at`,
`user_query`, `sql` and `db_fingerprint`, advances `last_seen_at` to the
second call's clock, and carries the second call's `duration_ms`,
`rows_count` and `tables_used`. -/
theorem upsert_success_convergent (sha256hex : String → String)
    (store : List HistoryRow) (t₁ t₂ : Nat) (id₁ id₂ : String)
    (db₁ uq₁ sql₁ db₂ uq₂ sql₂ : String)
    (tb₁ tb₂ : Option (List String)) (d₁ d₂ rc₁ rc₂ : Option Int)
    (s₁ s₂ : List HistoryRow × HistoryRow)
    (hfresh : ∀ r ∈ store,
      r.query_hash ≠ compute_query_hash sha256hex db₁ uq₁ sql₁)
    (hdb : _norm db₁ = _norm db₂) (huq : _norm uq₁ = _norm uq₂)
    (hsql : _norm sql₁ = _norm sql₂) (ht : t₁ < t₂)
    (hs₁ : upsert_success sha256hex store t₁ id₁ db₁ uq₁ sql₁ tb₁ d₁ rc₁ = s₁)
    (hs₂ : upsert_success sha256hex s₁.1 t₂ id₂ db₂ uq₂ sql₂ tb₂ d₂ rc₂ = s₂) :
    s₂.1.countP
      (fun r => r.query_hash = compute_query_hash sha256hex db₁ uq₁ sql₁) = 1 ∧
    s₂.2.hit_count = 2 ∧
    s₂.2.created_at = t₁ ∧ s₂.2.last_seen_at = t₂ ∧
    s₂.2.user_query = uq₁ ∧ s₂.2.sql = sql₁ ∧ s₂.2.db_fingerprint = db₁ ∧
    s₂.2.query_hash = compute_query_hash sha256hex db₁ uq₁ sql₁ ∧
    s₂.2.duration_ms = d₂ ∧ s₂.2.rows_count = rc₂ ∧ s₂.2.tables_used = tb₂ ∧
    s₁.2.last_seen_at < s₂.2.last_seen_at ∧
    s₂.2 ∈ s₂.1 := by
  have hq2 : compute_query_hash sha256hex db₂ uq₂ sql₂ =
      compute_query_hash sha256hex db₁ uq₁ sql₁ := by
    unfold compute_query_hash queryHashBase
    rw [hdb, huq, hsql]
  have e₁ := upsert_success_insert_case sha256hex store t₁ id₁ db₁ uq₁ sql₁
    tb₁ d₁ rc₁ hfresh
  rw [e₁] at hs₁
  subst hs₁
  dsimp only at hs₂
  have hfind₂ : (store ++ [freshHistoryRow id₁ db₁ uq₁ sql₁ tb₁ d₁ rc₁ t₁
      (compute_query_hash sha256hex db₁ uq₁ sql₁)]).find?
      (fun r => r.query_hash = compute_query_hash sha256hex db₂ uq₂ sql₂) =
      some (freshHistoryRow id₁ db₁ uq₁ sql₁ tb₁ d₁ rc₁ t₁
        (compute_query_hash sha256hex db₁ uq₁ sql₁)) := by
    rw [List.find?_append]
    have h0 : store.find?
        (fun r => r.query_hash = compute_query_hash sha256hex db₂ uq₂ sql₂) = none := by
      rw [List.find?_eq_none]
      intro x hx
      rw [hq2]
      simpa using hfresh x hx
    rw [h0]
    simp [List.find?, freshHistoryRow, hq2]
  have e₂ := upsert_success_conflict_case sha256hex
    (store ++ [freshHistoryRow id₁ db₁ uq₁ sql₁ tb₁ d₁ rc₁ t₁
      (compute_query_hash sha256hex db₁ uq₁ sql₁)]) t₂ id₂ db₂ uq₂ sql₂
    tb₂ d₂ rc₂ _ hfind₂
  rw [e₂] at hs₂
  subst hs₂
  dsimp only
  rw [hq2]
  refine ⟨?_, ?_, ?_, ?_, ?_, ?_, ?_, ?_, ?_, ?_, ?_, ?_, ?_⟩
  · rw [List.countP_map, List.countP_append]
    have hstore : store.countP ((fun r =>
        decide (r.query_hash = compute_query_hash sha256hex db₁ uq₁ sql₁)) ∘
        (fun s => if s.query_hash = compute_query_hash sha256hex db₁ uq₁ sql₁ then
          conflictUpdate s tb₂ d₂ rc₂ t₂ else s)) = 0 := by
      rw [List.countP_eq_zero]
      intro r hr
      have hne := hfresh r hr
      simp [Function.comp, if_neg hne, hne]
    have hone : ([freshHistoryRow id₁ db₁ uq₁ sql₁ tb₁ d₁ rc₁ t₁
        (compute_query_hash sha256hex db₁ uq₁ sql₁)] : List HistoryRow).countP
        ((fun r =>
          decide (r.query_hash = compute_query_hash sha256hex db₁ uq₁ sql₁)) ∘
        (fun s => if s.query_hash = compute_query_hash sha256hex db₁ uq₁ sql₁ then
          conflictUpdate s tb₂ d₂ rc₂ t₂ else s)) = 1 := by
      simp [Function.comp, freshHistoryRow, conflictUpdate]
    rw [hstore, hone]
  · simp [conflictUpdate, freshHistoryRow]
  · simp [conflictUpdate, freshHistoryRow]
  · simp [conflictUpdate, freshHistoryRow]
  · simp [conflictUpdate, freshHistoryRow]
  · simp [conflictUpdate, freshHistoryRow]
  · simp [conflictUpdate, freshHistoryRow]
  · simp [conflictUpdate, freshHistoryRow]
  · simp [conflictUpdate, freshHistoryRow]
  · simp [conflictUpdate, freshHistoryRow]
  · simp [conflictUpdate, freshHistoryRow]
  · simpa [conflictUpdate, freshHistoryRow] using ht
  · refine List.mem_map.mpr ⟨freshHistoryRow id₁ db₁ uq₁ sql₁ tb₁ d₁ rc₁ t₁
      (compute_query_hash sha256hex db₁ uq₁ sql₁), ?_, ?_⟩
    · exact List.mem_append_right _ (List.mem_singleton.mpr rfl)
    · simp [freshHistoryRow]

/-- Witness for C1: replaying an ingestion whose inputs differ only in case
and whitespace, from an empty store, leaves one row with `hit_count = 2`,
`created_at` at the first clock and `last_seen_at` at the second. -/
theorem upsert_success_convergent_witness :
    (upsert_success (fun s => s)
        (upsert_success (fun s => s) [] 0 "id1" "db1 " " Top  Customers" "SELECT 1"
          (some ["public.users"]) (some 5) (some 1)).1
        1 "id2" " DB1" "top customers" "select 1" none none none).1.countP
      (fun r => r.query_hash =
        compute_query_hash (fun s => s) "db1 " " Top  Customers" "SELECT 1") = 1 ∧
    (upsert_success (fun s => s)
        (upsert_success (fun s => s) [] 0 "id1" "db1 " " Top  Customers" "SELECT 1"
          (some ["public.users"]) (some 5) (some 1)).1
        1 "id2" " DB1" "top customers" "select 1" none none none).2.hit_count = 2 ∧
    (upsert_success (fun s => s)
        (upsert_success (fun s => s) [] 0 "id1" "db1 " " Top  Customers" "SELECT 1"
          (some ["public.users"]) (some 5) (some 1)).1
        1 "id2" " DB1" "top customers" "select 1" none none none).2.created_at = 0 ∧
    (upsert_success (fun s => s)
        (upsert_success (fun s => s) [] 0 "id1" "db1 " " Top  Customers" "SELECT 1"
          (some ["public.users"]) (some 5) (some 1)).1
        1 "id2" " DB1" "top customers" "select 1" none none none).2.last_seen_at = 1 := by
  have h := upsert_success_convergent (fun s => s) [] 0 1 "id1" "id2"
    "db1 " " Top  Customers" "SELECT 1" " DB1" "top customers" "select 1"
    (some ["public.users"]) none (some 5) none (some 1) none
    (upsert_success (fun s => s) [] 0 "id1" "db1 " " Top  Customers" "SELECT 1"
      (some ["public.users"]) (some 5) (some 1))
    (upsert_success (fun s => s)
      (upsert_success (fun s => s) [] 0 "id1" "db1 " " Top  Customers" "SELECT 1"
        (some ["public.users"]) (some 5) (some 1)).1
      1 "id2" " DB1" "top customers" "select 1" none none none)
    (by simp) (by decide) (by decide) (by decide) (by decide) rfl rfl
  exact ⟨h.1, h.2.1, h.2.2.1, h.2.2.2.1⟩

/-! ## Resolver helper lemmas -/

/-- Membership in the deduplicated list: an element is kept iff it occurs in
the input and is not among the already-seen elements. -/
theorem dedupAux_mem (x : String) (l : List String) :
    ∀ seen, x ∈ dedupAux seen l ↔ x ∈ l ∧ x ∉ seen := by
  induction l with
  | nil => intro seen; simp [dedupAux]
  | cons y ys ih =>
    intro seen
    by_cases h : seen.contains y
    · have hy : y ∈ seen := by simpa using h
      rw [dedupAux, if_pos h, ih]
      constructor
      · rintro ⟨hx, hs⟩
        exact ⟨List.mem_cons_of_mem _ hx, hs⟩
      · rintro ⟨hx, hs⟩
        rcases List.mem_cons.mp hx with rfl | hx
        · exact absurd hy hs
        · exact ⟨hx, hs⟩
    · have hy : y ∉ seen := by simpa using h
      rw [dedupAux, if_neg h, List.mem_cons, ih]
      constructor
      · rintro (rfl | ⟨hx, hs⟩)
        · exact ⟨List.mem_cons_self _ _, hy⟩
        · refine ⟨List.mem_cons_of_mem _ hx, fun hxx => hs ?_⟩
          exact List.mem_cons_of_mem _ hxx
      · rintro ⟨hx, hs⟩
        rcases List.mem_cons.mp hx with rfl | hx
        · exact Or.inl rfl
        · by_cases hxy : x = y
          · exact Or.inl hxy
          · exact Or.inr ⟨hx, by simp [hxy, hs]⟩

/-- Membership in `dedupStr` is membership in the input. -/
theorem dedupStr_mem (x : String) (l : List String) :
    x ∈ dedupStr l ↔ x ∈ l := by
  rw [dedupStr, dedupAux_mem]
  simp

/-- The deduplicated list has no duplicates. -/
theorem dedupAux_nodup (l : List String) :
    ∀ seen, (dedupAux seen l).Nodup := by
  induction l with
  | nil => intro seen; simp [dedupAux]
  | cons y ys ih =>
    intro seen
    by_cases h : seen.contains y
    · rw [dedupAux, if_pos h]
      exact ih seen
    · rw [dedupAux, if_neg h]
      refine List.nodup_cons.mpr ⟨fun hy => ?_, ih (y :: seen)⟩
      have := (dedupAux_mem y ys (y :: seen)).mp hy
      exact this.2 (List.mem_cons_self _ _)

/-- `dedupStr` produces a duplicate-free list. -/
theorem dedupStr_nodup (l : List String) : (dedupStr l).Nodup :=
  dedupAux_nodup l []

/-- Insertion produces a permutation of consing. -/
theorem insertStrAsc_perm (x : String) (l : List String) :
    (insertStrAsc x l).Perm (x :: l) := by
  induction l with
  | nil => simp [insertStrAsc]
  | cons y ys ih =>
    rw [insertStrAsc]
    by_cases h : y.data < x.data
    · rw [if_pos h]
      exact (ih.cons y).trans (List.Perm.swap x y ys)
    · rw [if_neg h]

/-- The insertion sort permutes its input. -/
theorem sortStrAsc_perm (l : List String) : (sortStrAsc l).Perm l := by
  induction l with
  | nil => simp [sortStrAsc]
  | cons x xs ih =>
    rw [sortStrAsc]
    exact (insertStrAsc_perm x (sortStrAsc xs)).trans (ih.cons x)

/-- Membership in the sorted list is membership in the input. -/
theorem sortStrAsc_mem (x : String) (l : List String) :
    x ∈ sortStrAsc l ↔ x ∈ l :=
  (sortStrAsc_perm l).mem_iff

/-- Insertion preserves ascending sortedness. -/
theorem insertStrAsc_pairwise (x : String) (l : List String)
    (h : l.Pairwise (· ≤ ·)) : (insertStrAsc x l).Pairwise (· ≤ ·) := by
  induction l with
  | nil => simp [insertStrAsc]
  | cons y ys ih =>
    rw [insertStrAsc]
    rcases List.pairwise_cons.mp h with ⟨hy, hys⟩
    by_cases hlt : y.data < x.data
    · rw [if_pos hlt]
      refine List.pairwise_cons.mpr ⟨?_, ih hys⟩
      intro z hz
      rcases List.mem_cons.mp ((insertStrAsc_perm x ys).mem_iff.mp hz) with rfl | hz'
      · exact le_of_lt (String.lt_iff_toList_lt.mpr hlt)
      · exact hy z hz'
    · rw [if_neg hlt]
      refine List.pairwise_cons.mpr ⟨?_, h⟩
      intro z hz
      have hxy : x ≤ y := by
        rw [String.le_iff_toList_le]
        exact not_lt.mp hlt
      rcases List.mem_cons.mp hz with rfl | hz'
      · exact hxy
      · exact hxy.trans (hy z hz')

/-- The insertion sort returns an ascending list. -/
theorem sortStrAsc_pairwise (l : List String) :
    (sortStrAsc l).Pairwise (· ≤ ·) := by
  induction l with
  | nil => simp [sortStrAsc]
  | cons x xs ih => exact insertStrAsc_pairwise x _ ih

/-- Lookup in the filtered table map built over a duplicate-free matched
list: the looked-up name is served from the authoritative map exactly when it
is matched. -/
theorem lookup_filtered_tables {T : Type} (full : List (String × T)) :
    ∀ (matched : List String), matched.Nodup → ∀ fq,
    (matched.filterMap (fun q => (full.lookup q).map (fun v => (q, v)))).lookup fq =
      if fq ∈ matched then full.lookup fq else none := by
  intro matched
  induction matched with
  | nil => intro _ fq; simp
  | cons m rest ih =>
    intro hN fq
    rcases List.nodup_cons.mp hN with ⟨hm, hrest⟩
    cases hfm : full.lookup m with
    | none =>
      rw [List.filterMap_cons]
      simp only [hfm, Option.map_none']
      rw [ih hrest fq]
      by_cases hfq : fq = m
      · subst hfq
        simp [hm, hfm]
      · simp [List.mem_cons, hfq]
    | some v =>
      rw [List.filterMap_cons]
      simp only [hfm, Option.map_some']
      by_cases hfq : fq = m
      · subst hfq
        simp [List.lookup_cons, hfm]
      · rw [List.lookup_cons]
        have hbeq : (fq == m) = false := by simpa using hfq
        simp only [hbeq]
        rw [ih hrest fq]
        simp [List.mem_cons, hfq]

/-- A key occurs in an association list iff its lookup succeeds. -/
theorem any_key_eq_lookup_isSome {T : Type} (l : List (String × T)) (x : String) :
    l.any (fun p => p.1 = x) = (l.lookup x).isSome := by
  induction l with
  | nil => simp
  | cons p ps ih =>
    obtain ⟨k, v⟩ := p
    by_cases h : k = x
    · subst h
      simp [List.lookup_cons]
    · have hxk : ¬x = k := fun he => h he.symm
      have hbeq : (x == k) = false := by simpa using hxk
      simp [List.lookup_cons, hbeq, h, ih]

/-- An `ite` of an optional value is `isSome` exactly when the condition
holds and the value is `isSome`. -/
theorem isSome_ite_none {T : Type} (c : Prop) [Decidable c] (o : Option T) :
    (if c then o else none).isSome = true ↔ c ∧ o.isSome = true := by
  by_cases h : c <;> simp [h]

/-- The main branch of `query_schema`, reached when the query text is
non-empty and some table matched. -/
theorem query_schema_eq_of_ne {T : Type} (vq : String → Nat → List ChunkMeta)
    (full : SchemaCtx T) (analysis : Analysis) (top_k : Nat)
    (hqt : _pick_query_text analysis ≠ "")
    (hMe : sortStrAsc (dedupStr
      ((vq (_pick_query_text analysis) top_k).filterMap _table_fq_from_meta)) ≠ []) :
    query_schema vq full analysis top_k =
      { tables := (sortStrAsc (dedupStr
            ((vq (_pick_query_text analysis) top_k).filterMap _table_fq_from_meta))).filterMap
            (fun fq => (full.tables.lookup fq).map (fun v => (fq, v)))
        foreign_keys := full.foreign_keys.filter
          (fun fk =>
            ((sortStrAsc (dedupStr
                ((vq (_pick_query_text analysis) top_k).filterMap _table_fq_from_meta))).filterMap
              (fun fq => (full.tables.lookup fq).map (fun v => (fq, v)))).any
                (fun p => p.1 = fk.«from») ||
            ((sortStrAsc (dedupStr
                ((vq (_pick_query_text analysis) top_k).filterMap _table_fq_from_meta))).filterMap
              (fun fq => (full.tables.lookup fq).map (fun v => (fq, v)))).any
                (fun p => p.1 = fk.«to»))
        matched_tables := sortStrAsc (dedupStr
          ((vq (_pick_query_text analysis) top_k).filterMap _table_fq_from_meta))
        query_text := _pick_query_text analysis } := by
  simp only [query_schema]
  rw [if_neg hqt, if_neg hMe]

/-- C2 (amended): for every resolver query with a non-empty matched set, the
matched tables are exactly the deduplicated, sorted identifiers collected
from the returned units (source endpoint for fk units); the table map serves
precisely the matched tables present in the freshly fetched authoritative
map; and the foreign-key list holds exactly the authoritative edges with an
endpoint among the matched tables that are present in the authoritative
table map. -/
theorem query_schema_reconciliation {T : Type} (vq : String → Nat → List ChunkMeta)
    (full : SchemaCtx T) (analysis : Analysis) (top_k : Nat)
    (hm : (query_schema vq full analysis top_k).matched_tables ≠ []) :
    (∀ fq, fq ∈ (query_schema vq full analysis top_k).matched_tables ↔
      ∃ m ∈ vq (_pick_query_text analysis) top_k,
        _table_fq_from_meta m = some fq) ∧
    (query_schema vq full analysis top_k).matched_tables.Pairwise (· ≤ ·) ∧
    (query_schema vq full analysis top_k).matched_tables.Nodup ∧
    (∀ fq, (query_schema vq full analysis top_k).tables.lookup fq =
      if fq ∈ (query_schema vq full analysis top_k).matched_tables then
        full.tables.lookup fq
      else none) ∧
    (∀ fk, fk ∈ (query_schema vq full analysis top_k).foreign_keys ↔
      fk ∈ full.foreign_keys ∧
        ((fk.«from» ∈ (query_schema vq full analysis top_k).matched_tables ∧
            (full.tables.lookup fk.«from»).isSome) ∨
         (fk.«to» ∈ (query_schema vq full analysis top_k).matched_tables ∧
            (full.tables.lookup fk.«to»).isSome))) ∧
    (query_schema vq full analysis top_k).query_text = _pick_query_text analysis := by
  have hqt : _pick_query_text analysis ≠ "" := by
    intro h
    apply hm
    simp [query_schema, h]
  have hMe : sortStrAsc (dedupStr
      ((vq (_pick_query_text analysis) top_k).filterMap _table_fq_from_meta)) ≠ [] := by
    intro h
    apply hm
    simp [query_schema, hqt, h]
  rw [query_schema_eq_of_ne vq full analysis top_k hqt hMe]
  dsimp only
  have hnd : (sortStrAsc (dedupStr
      ((vq (_pick_query_text analysis) top_k).filterMap _table_fq_from_meta))).Nodup :=
    (sortStrAsc_perm _).nodup_iff.mpr (dedupStr_nodup _)
  refine ⟨?_, sortStrAsc_pairwise _, hnd, ?_, ?_, rfl⟩
  · intro fq
    rw [sortStrAsc_mem, dedupStr_mem, List.mem_filterMap]
  · intro fq
    exact lookup_filtered_tables full.tables _ hnd fq
  · intro fk
    rw [List.mem_filter]
    constructor
    · rintro ⟨hin, hp⟩
      refine ⟨hin, ?_⟩
      rw [Bool.or_eq_true, any_key_eq_lookup_isSome, any_key_eq_lookup_isSome,
        lookup_filtered_tables full.tables _ hnd,
        lookup_filtered_tables full.tables _ hnd,
        isSome_ite_none, isSome_ite_none] at hp
      exact hp
    · rintro ⟨hin, h⟩
      refine ⟨hin, ?_⟩
      rw [Bool.or_eq_true, any_key_eq_lookup_isSome, any_key_eq_lookup_isSome,
        lookup_filtered_tables full.tables _ hnd,
        lookup_filtered_tables full.tables _ hnd,
        isSome_ite_none, isSome_ite_none]
      exact h

/-- Witness for C2 on the two-table example: the matched set is the sorted
deduplicated pair of identifiers, duplicate-free and ascending. -/
theorem query_schema_reconciliation_witness :
    (query_schema resolverOracle resolverCtx ordersAnalysis 30).matched_tables =
      ["public.orders", "public.users"] ∧
    (query_schema resolverOracle resolverCtx ordersAnalysis 30).matched_tables.Nodup ∧
    (query_schema resolverOracle resolverCtx ordersAnalysis
      30).matched_tables.Pairwise (· ≤ ·) := by
  have h := query_schema_reconciliation resolverOracle resolverCtx ordersAnalysis 30
    (by decide)
  exact ⟨by decide, h.2.2.1, h.2.1⟩

/-- Counterexample to C2 as stated: with matched table `a.b` absent from the
authoritative table map, the code returns no foreign keys, while filtering
the authoritative edges by membership of an endpoint in the matched set
would keep the edge. -/
theorem query_schema_fk_filter_counterexample :
    (query_schema staleOracle staleCtx qAnalysis 30).matched_tables = ["a.b"] ∧
    (query_schema staleOracle staleCtx qAnalysis 30).foreign_keys = [] ∧
    staleCtx.foreign_keys.filter (fun fk =>
      decide (fk.«from» ∈ (query_schema staleOracle staleCtx qAnalysis 30).matched_tables) ||
      decide (fk.«to» ∈ (query_schema staleOracle staleCtx qAnalysis 30).matched_tables)) =
      staleCtx.foreign_keys ∧
    (query_schema staleOracle staleCtx qAnalysis 30).foreign_keys ≠
      staleCtx.foreign_keys.filter (fun fk =>
        decide (fk.«from» ∈ (query_schema staleOracle staleCtx qAnalysis 30).matched_tables) ||
        decide (fk.«to» ∈ (query_schema staleOracle staleCtx qAnalysis 30).matched_tables)) := by
  refine ⟨by decide, by decide, by decide, by decide⟩

/-! ## Counting lemmas for the chunk synthesizer -/

/-- Sums of pointwise sums of naturals split. -/
theorem sum_map_add {α : Type} (L : List α) (f g : α → Nat) :
    (L.map (fun t => f t + g t)).sum = (L.map f).sum + (L.map g).sum := by
  induction L with
  | nil => simp
  | cons x xs ih =>
    simp only [List.map_cons, List.sum_cons, ih]
    omega

/-- Over a duplicate-free list containing `a`, the indicator of `a` sums
to one. -/
theorem sum_map_ite_eq {α : Type} [DecidableEq α] (L : List α) (a : α)
    (hN : L.Nodup) (ha : a ∈ L) :
    (L.map (fun t => if a = t then 1 else 0)).sum = 1 := by
  induction L with
  | nil => cases ha
  | cons x xs ih =>
    rcases List.nodup_cons.mp hN with ⟨hx, hxs⟩
    rcases List.mem_cons.mp ha with rfl | ha'
    · simp only [List.map_cons, List.sum_cons, if_pos rfl]
      have hz : (xs.map (fun t => if a = t then 1 else 0)).sum = 0 := by
        apply List.sum_eq_zero
        intro y hy
        rcases List.mem_map.mp hy with ⟨t, ht, rfl⟩
        have : a ≠ t := fun h => hx (h ▸ ht)
        simp [this]
      simp [hz]
    · have hax : a ≠ x := fun h => hx (h ▸ ha')
      simp only [List.map_cons, List.sum_cons, if_neg hax]
      rw [ih hxs ha']

/-- The indicator of a Boolean predicate sums to the filtered length. -/
theorem sum_map_ite_filter {α : Type} (L : List α) (q : α → Bool) :
    (L.map (fun t => if q t then 1 else 0)).sum = (L.filter q).length := by
  induction L with
  | nil => simp
  | cons x xs ih =>
    by_cases h : q x <;> simp [List.filter_cons, h, ih] <;> omega

/-- The constant-one map sums to the length. -/
theorem sum_map_one {α : Type} (L : List α) :
    (L.map (fun _ => 1)).sum = L.length := by
  induction L with
  | nil => simp
  | cons x xs ih =>
    simp only [List.map_cons, List.sum_cons, ih, List.length_cons]
    omega

/-- Partition counting: when every row's key lies in a duplicate-free key
list, the per-key filtered lengths sum to the total number of rows. -/
theorem sum_filter_lengths {R K : Type} [DecidableEq K] (key : R → K)
    (L : List K) (hN : L.Nodup) (rows : List R)
    (hcov : ∀ r ∈ rows, key r ∈ L) :
    (L.map (fun t => (rows.filter (fun r => decide (key r = t))).length)).sum =
      rows.length := by
  induction rows with
  | nil => simp
  | cons r rs ih =>
    have h1 : ∀ t ∈ L, ((r :: rs).filter (fun x => decide (key x = t))).length =
        (if key r = t then 1 else 0) +
          (rs.filter (fun x => decide (key x = t))).length := by
      intro t _
      by_cases h : key r = t <;> simp [List.filter_cons, h] <;> omega
    rw [List.map_congr_left h1, sum_map_add,
      sum_map_ite_eq L (key r) hN (hcov r (List.mem_cons_self r rs)),
      ih (fun x hx => hcov x (List.mem_cons_of_mem _ hx))]
    simp only [List.length_cons]
    omega

/-- The chunks of one table contain no fk chunk. -/
theorem perTableChunks_countP_fk (secs : Sections) (st : String × String) :
    (perTableChunks secs st).countP
      (fun c => c.2.chunk_type = "fk") = 0 := by
  simp only [perTableChunks]
  rw [List.countP_append, List.countP_append, List.countP_map]
  have h1 : ∀ b : List Chunk, b = (if tableDescGet secs st.1 st.2 = "" then [] else
      [(("Table " ++ st.1 ++ "." ++ st.2 ++ " description: " ++
         tableDescGet secs st.1 st.2,
        { chunk_type := "table_comment", schema_name := st.1,
          table_name := st.2 }) : Chunk)]) → b.countP
      (fun c => c.2.chunk_type = "fk") = 0 := by
    intro b hb
    by_cases hd : tableDescGet secs st.1 st.2 = "" <;> simp [hb, hd]
  rw [h1 _ rfl]
  simp [Function.comp, colChunk, summaryChunk]

/-- The chunks of one table contain exactly one column chunk per grouped
column row. -/
theorem perTableChunks_countP_column (secs : Sections) (st : String × String) :
    (perTableChunks secs st).countP
      (fun c => c.2.chunk_type = "column") = (colsFor secs st.1 st.2).length := by
  simp only [perTableChunks]
  rw [List.countP_append, List.countP_append, List.countP_map]
  have h1 : (if tableDescGet secs st.1 st.2 = "" then ([] : List Chunk) else
      [(("Table " ++ st.1 ++ "." ++ st.2 ++ " description: " ++
         tableDescGet secs st.1 st.2,
        { chunk_type := "table_comment", schema_name := st.1,
          table_name := st.2 }) : Chunk)]).countP
      (fun c => c.2.chunk_type = "column") = 0 := by
    by_cases hd : tableDescGet secs st.1 st.2 = "" <;> simp [hd]
  rw [h1]
  have h2 : (colsFor secs st.1 st.2).countP
      ((fun (c : Chunk) => decide (c.2.chunk_type = "column")) ∘
        colChunk st.1 st.2) = (colsFor secs st.1 st.2).length := by
    rw [List.countP_eq_length_filter]
    congr 1
    apply List.filter_eq_self.mpr
    intro c _
    simp [Function.comp, colChunk]
  rw [h2]
  simp [summaryChunk]

/-- The chunks of one table contain exactly one table-summary chunk. -/
theorem perTableChunks_countP_summary (secs : Sections) (st : String × String) :
    (perTableChunks secs st).countP
      (fun c => c.2.chunk_type = "table_summary") = 1 := by
  simp only [perTableChunks]
  rw [List.countP_append, List.countP_append, List.countP_map]
  have h1 : (if tableDescGet secs st.1 st.2 = "" then ([] : List Chunk) else
      [(("Table " ++ st.1 ++ "." ++ st.2 ++ " description: " ++
         tableDescGet secs st.1 st.2,
        { chunk_type := "table_comment", schema_name := st.1,
          table_name := st.2 }) : Chunk)]).countP
      (fun c => c.2.chunk_type = "table_summary") = 0 := by
    by_cases hd : tableDescGet secs st.1 st.2 = "" <;> simp [hd]
  rw [h1]
  have h2 : (colsFor secs st.1 st.2).countP
      ((fun (c : Chunk) => decide (c.2.chunk_type = "table_summary")) ∘
        colChunk st.1 st.2) = 0 := by
    apply List.countP_eq_zero.mpr
    intro c _
    simp [Function.comp, colChunk]
  rw [h2]
  simp [summaryChunk]

/-- The chunks of one table contain a table-comment chunk exactly when the
looked-up description is non-empty. -/
theorem perTableChunks_countP_comment (secs : Sections) (st : String × String) :
    (perTableChunks secs st).countP
      (fun c => c.2.chunk_type = "table_comment") =
      if tableDescGet secs st.1 st.2 ≠ "" then 1 else 0 := by
  simp only [perTableChunks]
  rw [List.countP_append, List.countP_append, List.countP_map]
  have h2 : (colsFor secs st.1 st.2).countP
      ((fun (c : Chunk) => decide (c.2.chunk_type = "table_comment")) ∘
        colChunk st.1 st.2) = 0 := by
    apply List.countP_eq_zero.mpr
    intro c _
    simp [Function.comp, colChunk]
  rw [h2]
  by_cases hd : tableDescGet secs st.1 st.2 = "" <;> simp [hd, summaryChunk]

/-- The grouped columns of a table are the key-filtered column entries. -/
theorem colsFor_length (secs : Sections) (st : String × String) :
    (colsFor secs st.1 st.2).length =
      ((colEntries secs).filter (fun p => decide (p.1 = st))).length := by
  unfold colsFor
  rw [List.length_map]

/-- C4: for consistent introspection sections — duplicate-free table list
and every column row's table present in it — `build_chunks` emits exactly one
fk unit per foreign-key row, exactly one column unit per column row, exactly
one table_summary unit per table, and a table_comment unit precisely for each
table whose looked-up description is non-empty (hence at most one per
table). -/
theorem build_chunks_counts (secs : Sections)
    (hN : (tableList secs).Nodup)
    (hcov : ∀ e ∈ colEntries secs, e.1 ∈ tableList secs) :
    (build_chunks secs).countP (fun c => c.2.chunk_type = "fk") =
      (fkRows secs).length ∧
    (build_chunks secs).countP (fun c => c.2.chunk_type = "column") =
      (colEntries secs).length ∧
    (build_chunks secs).countP (fun c => c.2.chunk_type = "table_summary") =
      (tableList secs).length ∧
    (build_chunks secs).countP (fun c => c.2.chunk_type = "table_comment") =
      ((tableList secs).filter
        (fun st => tableDescGet secs st.1 st.2 ≠ "")).length ∧
    (build_chunks secs).countP (fun c => c.2.chunk_type = "table_comment") ≤
      (tableList secs).length := by
  have hcomment : (build_chunks secs).countP
      (fun c => c.2.chunk_type = "table_comment") =
      ((tableList secs).filter
        (fun st => tableDescGet secs st.1 st.2 ≠ "")).length := by
    simp only [build_chunks]
    rw [List.countP_append, List.countP_map, List.countP_flatMap]
    have ha : (fkRows secs).countP
        ((fun (c : Chunk) => decide (c.2.chunk_type = "table_comment")) ∘
          fkChunk) = 0 := by
      apply List.countP_eq_zero.mpr
      intro f _
      simp [Function.comp, fkChunk]
    rw [ha]
    simp only [Function.comp_def]
    rw [List.map_congr_left (fun st _ => perTableChunks_countP_comment secs st)]
    have hb := sum_map_ite_filter (tableList secs)
      (fun st => decide (tableDescGet secs st.1 st.2 ≠ ""))
    simp only [decide_eq_true_eq] at hb
    rw [hb]
    simp
  refine ⟨?_, ?_, ?_, hcomment, ?_⟩
  · simp only [build_chunks]
    rw [List.countP_append, List.countP_map, List.countP_flatMap]
    have ha : (fkRows secs).countP
        ((fun (c : Chunk) => decide (c.2.chunk_type = "fk")) ∘ fkChunk) =
        (fkRows secs).length := by
      rw [List.countP_eq_length_filter]
      congr 1
      apply List.filter_eq_self.mpr
      intro f _
      simp [Function.comp, fkChunk]
    rw [ha]
    simp only [Function.comp_def]
    rw [List.map_congr_left (fun st _ => perTableChunks_countP_fk secs st)]
    simp
  · simp only [build_chunks]
    rw [List.countP_append, List.countP_map, List.countP_flatMap]
    have ha : (fkRows secs).countP
        ((fun (c : Chunk) => decide (c.2.chunk_type = "column")) ∘ fkChunk) = 0 := by
      apply List.countP_eq_zero.mpr
      intro f _
      simp [Function.comp, fkChunk]
    rw [ha]
    simp only [Function.comp_def]
    rw [List.map_congr_left (fun st _ => perTableChunks_countP_column secs st),
      List.map_congr_left (fun st _ => colsFor_length secs st),
      sum_filter_lengths Prod.fst (tableList secs) hN (colEntries secs) hcov]
    omega
  · simp only [build_chunks]
    rw [List.countP_append, List.countP_map, List.countP_flatMap]
    have ha : (fkRows secs).countP
        ((fun (c : Chunk) => decide (c.2.chunk_type = "table_summary")) ∘
          fkChunk) = 0 := by
      apply List.countP_eq_zero.mpr
      intro f _
      simp [Function.comp, fkChunk]
    rw [ha]
    simp only [Function.comp_def]
    rw [List.map_congr_left (fun st _ => perTableChunks_countP_summary secs st),
      sum_map_one]
    omega
  · rw [hcomment]
    exact List.length_filter_le _ _

/-- Witness for C4 on the sample sections: 1 fk unit, 3 column units, 2
table_summary units, 1 table_comment unit. -/
theorem build_chunks_counts_witness :
    (tableList sampleSections).Nodup ∧
    (build_chunks sampleSections).countP
      (fun c => c.2.chunk_type = "fk") = (fkRows sampleSections).length ∧
    (build_chunks sampleSections).countP
      (fun c => c.2.chunk_type = "column") = (colEntries sampleSections).length ∧
    (build_chunks sampleSections).countP
      (fun c => c.2.chunk_type = "table_summary") = (tableList sampleSections).length ∧
    (fkRows sampleSections).length = 1 ∧
    (colEntries sampleSections).length = 3 ∧
    (tableList sampleSections).length = 2 := by
  have h := build_chunks_counts sampleSections (by decide) (by decide)
  exact ⟨by decide, h.1, h.2.1, h.2.2.1, by decide, by decide, by decide⟩

/-- C8: a table whose column group has 40 entries and whose outgoing
foreign-key group has 35 entries gets a table_summary unit whose parts are
the three header lines, exactly the first 25 column lines, the foreign-key
header and exactly the first 30 constraint lines — 59 parts in total, with
no truncation marker — and that unit is emitted by `build_chunks`. -/
theorem tableSummaryParts_truncation (secs : Sections) (schema table : String)
    (hmem : (schema, table) ∈ tableList secs)
    (h40 : (colsFor secs schema table).length = 40)
    (h35 : (fksFor secs schema table).length = 35) :
    summaryChunk secs schema table ∈ build_chunks secs ∧
    tableSummaryParts schema table (tableDescGet secs schema table)
        (colsFor secs schema table) (fksFor secs schema table) =
      ["TABLE " ++ schema ++ "." ++ table,
       (if tableDescGet secs schema table = "" then "Description: (none)"
        else "Description: " ++ tableDescGet secs schema table),
       "Columns:"] ++
      ((colsFor secs schema table).take 25).map summaryColLine ++
      ["Foreign keys:"] ++
      ((fksFor secs schema table).take 30).map (summaryFkLine schema table) ∧
    (((colsFor secs schema table).take 25).map summaryColLine).length = 25 ∧
    (((fksFor secs schema table).take 30).map
      (summaryFkLine schema table)).length = 30 ∧
    (tableSummaryParts schema table (tableDescGet secs schema table)
        (colsFor secs schema table) (fksFor secs schema table)).length = 59 := by
  have hc : (((colsFor secs schema table).take 25).map summaryColLine).length = 25 := by
    rw [List.length_map, List.length_take, h40]
    omega
  have hf : (((fksFor secs schema table).take 30).map
      (summaryFkLine schema table)).length = 30 := by
    rw [List.length_map, List.length_take, h35]
    omega
  have hcne : ((colsFor secs schema table).take 25).map summaryColLine ≠ [] := by
    intro h
    rw [h] at hc
    cases hc
  have hfne : ((fksFor secs schema table).take 30).map
      (summaryFkLine schema table) ≠ [] := by
    intro h
    rw [h] at hf
    cases hf
  have hparts : tableSummaryParts schema table (tableDescGet secs schema table)
      (colsFor secs schema table) (fksFor secs schema table) =
      ["TABLE " ++ schema ++ "." ++ table,
       (if tableDescGet secs schema table = "" then "Description: (none)"
        else "Description: " ++ tableDescGet secs schema table),
       "Columns:"] ++
      ((colsFor secs schema table).take 25).map summaryColLine ++
      ["Foreign keys:"] ++
      ((fksFor secs schema table).take 30).map (summaryFkLine schema table) := by
    simp only [tableSummaryParts]
    rw [if_neg hcne, if_neg hfne]
  have hmem' : summaryChunk secs schema table ∈
      perTableChunks secs (schema, table) := by
    simp only [perTableChunks]
    exact List.mem_append_right _ (List.mem_singleton.mpr rfl)
  refine ⟨?_, hparts, hc, hf, ?_⟩
  · exact List.mem_append_right _
      (List.mem_flatMap.mpr ⟨(schema, table), hmem, hmem'⟩)
  · rw [hparts]
    simp only [List.length_append, List.length_map, List.length_take,
      List.length_cons, List.length_nil, h40, h35]
    omega

/-- Witness for C8 on the 40-column, 35-fk table. -/
theorem tableSummaryParts_truncation_witness :
    (((colsFor wideSections "s" "t").take 25).map summaryColLine).length = 25 ∧
    (((fksFor wideSections "s" "t").take 30).map
      (summaryFkLine "s" "t")).length = 30 ∧
    (tableSummaryParts "s" "t" (tableDescGet wideSections "s" "t")
        (colsFor wideSections "s" "t") (fksFor wideSections "s" "t")).length = 59 ∧
    summaryChunk wideSections "s" "t" ∈ build_chunks wideSections := by
  have h := tableSummaryParts_truncation wideSections "s" "t" (by decide)
    (by decide) (by decide)
  exact ⟨h.2.2.1, h.2.2.2.1, h.2.2.2.2, h.1⟩

/-- A flatMap over a duplicate-free list collapses to the contribution of
one element when every other element contributes nothing. -/
theorem flatMap_eq_of_eq_nil {α β : Type} (L : List α) (g : α → List β)
    (a : α) (hN : L.Nodup) (ha : a ∈ L)
    (hz : ∀ b ∈ L, b ≠ a → g b = []) : L.flatMap g = g a := by
  induction L with
  | nil => cases ha
  | cons x xs ih =>
    rcases List.nodup_cons.mp hN with ⟨hx, hxs⟩
    rw [List.flatMap_cons]
    rcases List.mem_cons.mp ha with rfl | ha'
    · have hrest : xs.flatMap g = [] := by
        apply List.flatMap_eq_nil_iff.mpr
        intro b hb
        exact hz b (List.mem_cons_of_mem _ hb) (fun h => hx (h ▸ hb))
      rw [hrest, List.append_nil]
    · have hxa : x ≠ a := fun h => hx (h ▸ ha')
      rw [hz x (List.mem_cons_self _ _) hxa, List.nil_append]
      exact ih hxs ha' (fun b hb => hz b (List.mem_cons_of_mem _ hb))

/-- The column chunks surviving the (column, schema, table) tag filter in one
table's chunk list: everything for the table itself, nothing otherwise. -/
theorem perTableChunks_filter_column (secs : Sections) (st : String × String)
    (schema table : String) :
    (perTableChunks secs st).filter (fun c =>
        c.2.chunk_type = "column" ∧ c.2.schema_name = schema ∧
          c.2.table_name = table) =
      if st = (schema, table) then
        (colsFor secs schema table).map (colChunk schema table)
      else [] := by
  by_cases hst : st = (schema, table)
  · subst hst
    rw [if_pos rfl]
    simp only [perTableChunks]
    rw [List.filter_append, List.filter_append]
    have h1 : (if tableDescGet secs schema table = "" then ([] : List Chunk) else
        [(("Table " ++ schema ++ "." ++ table ++ " description: " ++
           tableDescGet secs schema table,
          { chunk_type := "table_comment", schema_name := schema,
            table_name := table }) : Chunk)]).filter (fun c =>
        c.2.chunk_type = "column" ∧ c.2.schema_name = schema ∧
          c.2.table_name = table) = [] := by
      by_cases hd : tableDescGet secs schema table = "" <;> simp [hd]
    have h2 : ((colsFor secs schema table).map (colChunk schema table)).filter
        (fun c => c.2.chunk_type = "column" ∧ c.2.schema_name = schema ∧
          c.2.table_name = table) =
        (colsFor secs schema table).map (colChunk schema table) := by
      apply List.filter_eq_self.mpr
      intro c hc
      rcases List.mem_map.mp hc with ⟨x, _, rfl⟩
      simp [colChunk]
    have h3 : ([summaryChunk secs schema table] : List Chunk).filter
        (fun c => c.2.chunk_type = "column" ∧ c.2.schema_name = schema ∧
          c.2.table_name = table) = [] := by
      simp [summaryChunk]
    rw [h1, h2, h3, List.nil_append, List.append_nil]
  · rw [if_neg hst]
    apply List.filter_eq_nil_iff.mpr
    intro c hc
    simp only [perTableChunks] at hc
    rcases List.mem_append.mp hc with hc' | hc'
    · rcases List.mem_append.mp hc' with hc'' | hc''
      · by_cases hd : tableDescGet secs st.1 st.2 = ""
        · rw [if_pos hd] at hc''
          cases hc''
        · rw [if_neg hd] at hc''
          rcases List.mem_singleton.mp hc'' with rfl
          simp
      · rcases List.mem_map.mp hc'' with ⟨x, _, rfl⟩
        simp only [colChunk, decide_eq_true_eq]
        intro h
        exact absurd (Prod.ext h.2.1 h.2.2) hst
    · rcases List.mem_singleton.mp hc' with rfl
      simp [summaryChunk]

/-- C9: for every table of a consistent table list, the column units of
`build_chunks` tagged with that table are exactly one unit per grouped column
row, in group (position) order; the unit text is
`Column <schema>.<table>.<column> type=<type> nullable=<flag> default=<default-or-NULL>`
with the ` description=<desc>` suffix present exactly when the column
description is non-empty and a falsy default rendered as `NULL`. -/
theorem build_chunks_column_units (secs : Sections) (schema table : String)
    (hN : (tableList secs).Nodup) (hmem : (schema, table) ∈ tableList secs) :
    ((build_chunks secs).filter (fun c =>
        c.2.chunk_type = "column" ∧ c.2.schema_name = schema ∧
          c.2.table_name = table)) =
      (colsFor secs schema table).map (colChunk schema table) ∧
    (∀ c ∈ colsFor secs schema table, c.column_description ≠ "" →
      colChunkText schema table c =
        "Column " ++ schema ++ "." ++ table ++ "." ++ c.column_name ++
          " type=" ++ c.data_type ++ " nullable=" ++ c.is_nullable ++
          " default=" ++
          (if c.column_default = "" then "NULL" else c.column_default) ++
          (" description=" ++ c.column_description)) ∧
    (∀ c ∈ colsFor secs schema table, c.column_description = "" →
      colChunkText schema table c =
        "Column " ++ schema ++ "." ++ table ++ "." ++ c.column_name ++
          " type=" ++ c.data_type ++ " nullable=" ++ c.is_nullable ++
          " default=" ++
          (if c.column_default = "" then "NULL" else c.column_default)) := by
  refine ⟨?_, ?_, ?_⟩
  · simp only [build_chunks]
    rw [List.filter_append]
    have hfk : ((fkRows secs).map fkChunk).filter (fun c =>
        c.2.chunk_type = "column" ∧ c.2.schema_name = schema ∧
          c.2.table_name = table) = [] := by
      apply List.filter_eq_nil_iff.mpr
      intro c hc
      rcases List.mem_map.mp hc with ⟨f, _, rfl⟩
      simp [fkChunk]
    rw [hfk, List.nil_append, List.filter_flatMap]
    rw [flatMap_eq_of_eq_nil (tableList secs) _ (schema, table) hN hmem]
    · rw [perTableChunks_filter_column, if_pos rfl]
    · intro b _ hb
      rw [perTableChunks_filter_column, if_neg hb]
  · intro c _ hd
    simp [colChunkText, hd]
  · intro c _ hd
    simp [colChunkText, hd]

/-- Witness for C9 on the sample sections: the extracted column units of
`public.users` and the rendered text of its described `id` column. -/
theorem build_chunks_column_units_witness :
    ((build_chunks sampleSections).filter (fun c =>
        c.2.chunk_type = "column" ∧ c.2.schema_name = "public" ∧
          c.2.table_name = "users")) =
      (colsFor sampleSections "public" "users").map (colChunk "public" "users") ∧
    (colsFor sampleSections "public" "users").length = 2 ∧
    colChunkText "public" "users"
        { column_name := "id", data_type := "integer", is_nullable := "NO",
          column_default := "", column_description := "primary key" } =
      "Column " ++ "public" ++ "." ++ "users" ++ "." ++ "id" ++
        " type=" ++ "integer" ++ " nullable=" ++ "NO" ++ " default=" ++
        (if ("" : String) = "" then "NULL" else "") ++
        (" description=" ++ "primary key") := by
  have h := build_chunks_column_units sampleSections "public" "users"
    (by decide) (by decide)
  exact ⟨h.1, by decide,
    h.2.1 { column_name := "id", data_type := "integer", is_nullable := "NO",
            column_default := "", column_description := "primary key" }
      (by decide) (by decide)⟩

/-! ## Vector-store persistence lemmas -/

/-- With enough fuel, the batch slices flatten back to the input. -/
theorem splitBatchesAux_flatten (sz : Nat) (hsz : 0 < sz) :
    ∀ (fuel : Nat) (l : List (String × Chunk)), l.length ≤ fuel →
      (splitBatchesAux sz fuel l).flatten = l := by
  intro fuel
  induction fuel with
  | zero =>
    intro l hl
    rcases l with _ | ⟨x, xs⟩
    · simp [splitBatchesAux]
    · simp at hl
  | succ n ih =>
    intro l hl
    rcases l with _ | ⟨x, xs⟩
    · simp [splitBatchesAux]
    · rw [splitBatchesAux, List.flatten_cons,
        ih ((x :: xs).drop sz)
          (by rw [List.length_drop, List.length_cons]; simp at hl; omega),
        List.take_append_drop]

/-- Folding batch upserts equals one upsert of the flattened batches. -/
theorem foldl_upsertMany_flatten (bs : List (List (String × Chunk))) :
    ∀ coll, bs.foldl upsertMany coll = upsertMany coll bs.flatten := by
  induction bs with
  | nil => intro coll; simp [upsertMany]
  | cons b bs ih =>
    intro coll
    rw [List.foldl_cons, ih, List.flatten_cons]
    unfold upsertMany
    rw [List.foldl_append]

/-- `save_to_chroma` is the in-order upsert of the id/chunk pairs; batching
in fifties does not change the resulting collection. -/
theorem save_to_chroma_eq (coll : Collection) (ids : List String)
    (chunks : List Chunk) :
    save_to_chroma coll ids chunks = upsertMany coll (ids.zip chunks) := by
  unfold save_to_chroma splitBatches
  rw [foldl_upsertMany_flatten,
    splitBatchesAux_flatten 50 (by omega) _ _ (le_refl _)]

/-- Upserting pairs whose ids are fresh for the collection and mutually
distinct appends them all. -/
theorem upsertMany_fresh (pairs : List (String × Chunk)) :
    ∀ coll, (∀ p ∈ pairs, ∀ q ∈ coll, q.1 ≠ p.1) →
      (pairs.map Prod.fst).Nodup →
      upsertMany coll pairs = coll ++ pairs := by
  induction pairs with
  | nil => intro coll _ _; simp [upsertMany]
  | cons p ps ih =>
    intro coll hfresh hnd
    unfold upsertMany
    rw [List.foldl_cons]
    have h1 : upsertOne coll p.1 p.2 = coll ++ [p] := by
      unfold upsertOne
      rw [if_neg]
      intro hany
      rcases List.any_eq_true.mp hany with ⟨q, hq, hq1⟩
      exact hfresh p (List.mem_cons_self _ _) q hq (by simpa using hq1)
    rw [h1]
    rw [List.map_cons] at hnd
    rcases List.nodup_cons.mp hnd with ⟨hp1, hps⟩
    have h2 : upsertMany (coll ++ [p]) ps = (coll ++ [p]) ++ ps := by
      apply ih
      · intro r hr q hq
        rcases List.mem_append.mp hq with hq' | hq'
        · exact hfresh r (List.mem_cons_of_mem _ hr) q hq'
        · rcases List.mem_singleton.mp hq' with rfl
          exact fun h => hp1 (h ▸ List.mem_map_of_mem Prod.fst hr)
      · exact hps
    calc List.foldl (fun acc q => upsertOne acc q.1 q.2) (coll ++ [p]) ps
        = upsertMany (coll ++ [p]) ps := rfl
      _ = (coll ++ [p]) ++ ps := h2
      _ = coll ++ p :: ps := by simp

/-- Chunk payload counts survive zipping with fresh ids. -/
theorem countP_snd_zip (ids : List String) (chunks : List Chunk)
    (h : ids.length = chunks.length) (c : Chunk) :
    (ids.zip chunks).countP (fun p => p.2 = c) =
      chunks.countP (fun x => x = c) := by
  have hm : (ids.zip chunks).map Prod.snd = chunks :=
    List.map_snd_zip ids chunks (le_of_eq h.symm)
  calc (ids.zip chunks).countP (fun p => p.2 = c)
      = ((ids.zip chunks).map Prod.snd).countP (fun x => x = c) := by
        rw [List.countP_map]
        rfl
    _ = chunks.countP (fun x => x = c) := by rw [hm]

/-- C10: `save_to_chroma` draws fresh random ids on every invocation and
upserts into the existing collection, so running the build twice over the
same unchanged chunks (with `reset_collection=False`, as in
`SchemaRagService.start`) stores every unit twice — the collection doubles —
while a run from a freshly reset collection (as in `update`) stores each unit
once.  Random UUID generation is modelled by the id lists and the freshness
hypothesis that all drawn ids are distinct. -/
theorem save_to_chroma_not_idempotent (ids₁ ids₂ : List String)
    (chunks : List Chunk)
    (hlen₁ : ids₁.length = chunks.length) (hlen₂ : ids₂.length = chunks.length)
    (hN : (ids₁ ++ ids₂).Nodup) :
    (save_to_chroma (save_to_chroma [] ids₁ chunks) ids₂ chunks).length =
      2 * chunks.length ∧
    (∀ c : Chunk,
      (save_to_chroma (save_to_chroma [] ids₁ chunks) ids₂ chunks).countP
        (fun p => p.2 = c) = 2 * chunks.countP (fun x => x = c)) ∧
    (save_to_chroma [] ids₂ chunks).length = chunks.length := by
  rcases List.nodup_append.mp hN with ⟨hN₁, hN₂, hdisj⟩
  have hz₁ : (ids₁.zip chunks).map Prod.fst = ids₁ :=
    List.map_fst_zip ids₁ chunks (le_of_eq hlen₁)
  have hz₂ : (ids₂.zip chunks).map Prod.fst = ids₂ :=
    List.map_fst_zip ids₂ chunks (le_of_eq hlen₂)
  have h1 : save_to_chroma [] ids₁ chunks = ids₁.zip chunks := by
    rw [save_to_chroma_eq,
      upsertMany_fresh _ [] (by simp) (by rw [hz₁]; exact hN₁), List.nil_append]
  have h2 : save_to_chroma [] ids₂ chunks = ids₂.zip chunks := by
    rw [save_to_chroma_eq,
      upsertMany_fresh _ [] (by simp) (by rw [hz₂]; exact hN₂), List.nil_append]
  have h3 : save_to_chroma (ids₁.zip chunks) ids₂ chunks =
      ids₁.zip chunks ++ ids₂.zip chunks := by
    rw [save_to_chroma_eq]
    apply upsertMany_fresh
    · intro p hp q hq
      have hp1 : p.1 ∈ ids₂ := (List.mem_zip hp).1
      have hq1 : q.1 ∈ ids₁ := (List.mem_zip hq).1
      exact fun h => hdisj hq1 (h ▸ hp1)
    · rw [hz₂]
      exact hN₂
  have hlz₁ : (ids₁.zip chunks).length = chunks.length := by
    rw [List.length_zip, hlen₁]
    omega
  have hlz₂ : (ids₂.zip chunks).length = chunks.length := by
    rw [List.length_zip, hlen₂]
    omega
  refine ⟨?_, ?_, ?_⟩
  · rw [h1, h3, List.length_append, hlz₁, hlz₂]
    omega
  · intro c
    rw [h1, h3, List.countP_append, countP_snd_zip ids₁ chunks hlen₁ c,
      countP_snd_zip ids₂ chunks hlen₂ c]
    omega
  · rw [h2, hlz₂]

/-- Witness for C10: two chunks saved twice with four distinct ids leave four
entries, each chunk stored twice; a save into a reset collection leaves two. -/
theorem save_to_chroma_not_idempotent_witness :
    (save_to_chroma (save_to_chroma []
        ["a", "b"] [("t1", { chunk_type := "fk" }), ("t2", { chunk_type := "column" })])
        ["c", "d"] [("t1", { chunk_type := "fk" }), ("t2", { chunk_type := "column" })]).length =
      2 * ([("t1", { chunk_type := "fk" }), ("t2", { chunk_type := "column" })] : List Chunk).length ∧
    (save_to_chroma (save_to_chroma []
        ["a", "b"] [("t1", { chunk_type := "fk" }), ("t2", { chunk_type := "column" })])
        ["c", "d"] [("t1", { chunk_type := "fk" }), ("t2", { chunk_type := "column" })]).countP
      (fun p => p.2 = (("t1", { chunk_type := "fk" }) : Chunk)) =
      2 * ([("t1", { chunk_type := "fk" }), ("t2", { chunk_type := "column" })] : List Chunk).countP
        (fun x => x = (("t1", { chunk_type := "fk" }) : Chunk)) ∧
    (save_to_chroma [] ["c", "d"]
        [("t1", { chunk_type := "fk" }), ("t2", { chunk_type := "column" })]).length =
      ([("t1", { chunk_type := "fk" }), ("t2", { chunk_type := "column" })] : List Chunk).length := by
  have h := save_to_chroma_not_idempotent ["a", "b"] ["c", "d"]
    [("t1", { chunk_type := "fk" }), ("t2", { chunk_type := "column" })]
    (by decide) (by decide) (by decide)
  exact ⟨h.1, h.2.1 ("t1", { chunk_type := "fk" }), h.2.2⟩

/-- The deduplicated-and-filtered list has the cardinality of the finite-set
intersection. -/
theorem filter_dedup_length_eq_card_inter (a b : List String) :
    (a.dedup.filter (fun x => decide (x ∈ b))).length =
      (a.toFinset ∩ b.toFinset).card := by
  have hnd : (a.dedup.filter (fun x => decide (x ∈ b))).Nodup :=
    (List.nodup_dedup a).filter _
  rw [← List.toFinset_card_of_nodup hnd]
  congr 1
  ext x
  simp [List.mem_filter, List.mem_dedup]

/-- The code's conditional boost equals the spec's overlap boost, for every
candidate. -/
theorem score_eq_specScore (tu : Option (List String)) (tf : List String)
    (boost base : ℚ) :
    (if tf ≠ [] then base + boost * _tables_overlap tu tf else base) =
      base + specBoost tu tf boost := by
  by_cases htf : tf = []
  · subst htf
    simp [specBoost]
  · rw [if_pos htf]
    rcases tu with _ | a
    · simp [_tables_overlap, specBoost]
    · by_cases ha : a = []
      · subst ha
        simp [_tables_overlap, specBoost]
      · simp only [_tables_overlap, specBoost, Option.getD_some]
        rw [if_neg (show ¬(a = [] ∨ tf = []) by push_neg; exact ⟨ha, htf⟩)]
        have hcard := filter_dedup_length_eq_card_inter a tf
        have hlenpos : 0 < a.dedup.length := by
          obtain ⟨x, hx⟩ := List.exists_mem_of_ne_nil a ha
          exact List.length_pos.mpr
            (List.ne_nil_of_mem (List.mem_dedup.mpr hx))
        have hmax : ((1 : ℚ) ⊔ (a.dedup.length : ℚ)) = (a.dedup.length : ℚ) :=
          max_eq_right (by exact_mod_cast hlenpos)
        have hAcard : a.toFinset.card = a.dedup.length := List.card_toFinset a
        by_cases hint : (a.toFinset ∩ tf.toFinset).Nonempty
        · rw [if_pos hint, hcard, hmax, hAcard]
          ring
        · rw [if_neg hint]
          have hzero : (a.dedup.filter (fun x => decide (x ∈ tf))).length = 0 := by
            rw [hcard]
            exact Finset.card_eq_zero.mpr
              (Finset.not_nonempty_iff_eq_empty.mp hint)
          rw [hzero]
          simp

/-- The code's scored candidate list equals the spec's. -/
theorem searchScored_eq_spec (ids : List String) (dists : List ℚ)
    (rows_map : List (String × HistoryRow)) (tf : List String) (boost : ℚ) :
    searchScored ids dists rows_map tf boost =
      specSearchScored ids dists rows_map tf boost := by
  unfold searchScored specSearchScored
  apply List.filterMap_congr
  intro p _
  cases h : rows_map.lookup p.1 with
  | none => simp
  | some row =>
    simp only [Option.map_some']
    rw [score_eq_specScore row.tables_used tf boost (1 - p.2)]

/-- Stable descending insertion permutes consing. -/
theorem insertScoreDesc_perm (x : ℚ × HistoryRow) (l : List (ℚ × HistoryRow)) :
    (insertScoreDesc x l).Perm (x :: l) := by
  induction l with
  | nil => simp [insertScoreDesc]
  | cons y ys ih =>
    rw [insertScoreDesc]
    by_cases h : x.1 < y.1
    · rw [if_pos h]
      exact (ih.cons y).trans (List.Perm.swap x y ys)
    · rw [if_neg h]

/-- The stable sort permutes its input. -/
theorem sortScoreDesc_perm (l : List (ℚ × HistoryRow)) :
    (sortScoreDesc l).Perm l := by
  induction l with
  | nil => simp [sortScoreDesc]
  | cons x xs ih =>
    rw [sortScoreDesc]
    exact (insertScoreDesc_perm x (sortScoreDesc xs)).trans (ih.cons x)

/-- Stable descending insertion preserves descending sortedness. -/
theorem insertScoreDesc_pairwise (x : ℚ × HistoryRow)
    (l : List (ℚ × HistoryRow))
    (h : l.Pairwise (fun a b => b.1 ≤ a.1)) :
    (insertScoreDesc x l).Pairwise (fun a b => b.1 ≤ a.1) := by
  induction l with
  | nil => simp [insertScoreDesc]
  | cons y ys ih =>
    rw [insertScoreDesc]
    rcases List.pairwise_cons.mp h with ⟨hy, hys⟩
    by_cases hlt : x.1 < y.1
    · rw [if_pos hlt]
      refine List.pairwise_cons.mpr ⟨?_, ih hys⟩
      intro z hz
      rcases List.mem_cons.mp ((insertScoreDesc_perm x ys).mem_iff.mp hz) with
        rfl | hz'
      · exact le_of_lt hlt
      · exact hy z hz'
    · rw [if_neg hlt]
      refine List.pairwise_cons.mpr ⟨?_, h⟩
      intro z hz
      have hyx : y.1 ≤ x.1 := le_of_not_lt hlt
      rcases List.mem_cons.mp hz with rfl | hz'
      · exact hyx
      · exact (hy z hz').trans hyx

/-- The stable sort returns a descending list. -/
theorem sortScoreDesc_pairwise (l : List (ℚ × HistoryRow)) :
    (sortScoreDesc l).Pairwise (fun a b => b.1 ≤ a.1) := by
  induction l with
  | nil => simp [sortScoreDesc]
  | cons x xs ih => exact insertScoreDesc_pairwise x _ ih

/-- Round-half-even never goes below the floor. -/
theorem roundHalfEven_ge_floor (x : ℚ) : ⌊x⌋ ≤ roundHalfEven x := by
  unfold roundHalfEven
  split_ifs <;> omega

/-- Round-half-even never exceeds the floor plus one. -/
theorem roundHalfEven_le_floor_add_one (x : ℚ) :
    roundHalfEven x ≤ ⌊x⌋ + 1 := by
  unfold roundHalfEven
  split_ifs <;> omega

/-- Round-half-even is monotone. -/
theorem roundHalfEven_mono {x y : ℚ} (h : x ≤ y) :
    roundHalfEven x ≤ roundHalfEven y := by
  rcases lt_or_eq_of_le (Int.floor_le_floor h) with hf | hf
  · calc roundHalfEven x ≤ ⌊x⌋ + 1 := roundHalfEven_le_floor_add_one x
      _ ≤ ⌊y⌋ := by omega
      _ ≤ roundHalfEven y := roundHalfEven_ge_floor y
  · unfold roundHalfEven
    rw [← hf]
    have hfx : (⌊x⌋ : ℚ) ≤ x := Int.floor_le x
    have hxy : x - (⌊x⌋ : ℚ) ≤ y - (⌊x⌋ : ℚ) := by linarith
    split_ifs <;> first | omega | linarith | tauto

/-- Rounding to four decimal places is monotone. -/
theorem round4_mono {x y : ℚ} (h : x ≤ y) : round4 x ≤ round4 y := by
  unfold round4
  have h1 : x * 10000 ≤ y * 10000 := by linarith
  have h2 := roundHalfEven_mono h1
  have h3 : ((roundHalfEven (x * 10000) : ℤ) : ℚ) ≤
      ((roundHalfEven (y * 10000) : ℤ) : ℚ) := by exact_mod_cast h2
  linarith

/-- C3: the ranking core of `HistoryRagService.search` equals the spec's
pipeline — per-candidate score `(1 - distance)` plus
`table_boost * |intersection| / |tables_used|` on overlap, stable descending
sort with ties in prefetch order, at most `top_k` results, scores rounded to
four decimal places; the returned scores are descending, at most `top_k`
matches are returned, and a candidate whose table set is fully contained in
the matched set receives the full overlap ratio 1 regardless of how much
larger the matched set is. -/
theorem history_search_scoring (ids : List String) (dists : List ℚ)
    (rows_map : List (String × HistoryRow)) (tables_filter : List String)
    (top_k : Nat) (table_boost : ℚ) :
    historySearch ids dists rows_map tables_filter top_k table_boost =
      specHistorySearch ids dists rows_map tables_filter top_k table_boost ∧
    (historySearch ids dists rows_map tables_filter top_k table_boost).length ≤
      top_k ∧
    (historySearch ids dists rows_map tables_filter top_k table_boost).Pairwise
      (fun m₁ m₂ => m₂.score ≤ m₁.score) ∧
    (∀ a b : List String, a ≠ [] → (∀ x ∈ a, x ∈ b) →
      _tables_overlap (some a) b = 1) := by
  refine ⟨?_, ?_, ?_, ?_⟩
  · unfold historySearch specHistorySearch
    rw [searchScored_eq_spec]
  · unfold historySearch
    by_cases h : ids = []
    · simp [h]
    · rw [if_neg h, List.length_map]
      exact List.length_take_le _ _
  · unfold historySearch
    by_cases h : ids = []
    · simp [h]
    · rw [if_neg h]
      refine List.Pairwise.map (R := fun a b : ℚ × HistoryRow => b.1 ≤ a.1)
        mkHistoryMatch ?_ ?_
      · intro a b hab
        exact round4_mono hab
      · exact List.Pairwise.sublist (List.take_sublist _ _)
          (sortScoreDesc_pairwise
            (searchScored ids dists rows_map tables_filter table_boost))
  · intro a b ha hsub
    have hb : b ≠ [] := by
      obtain ⟨x, hx⟩ := List.exists_mem_of_ne_nil a ha
      exact List.ne_nil_of_mem (hsub x hx)
    simp only [_tables_overlap]
    rw [if_neg (show ¬(a = [] ∨ b = []) by push_neg; exact ⟨ha, hb⟩)]
    have hall : a.dedup.filter (fun x => decide (x ∈ b)) = a.dedup :=
      List.filter_eq_self.mpr
        (fun x hx => by simpa using hsub x (List.mem_dedup.mp hx))
    rw [hall]
    have hlenpos : 0 < a.dedup.length := by
      obtain ⟨x, hx⟩ := List.exists_mem_of_ne_nil a ha
      exact List.length_pos.mpr (List.ne_nil_of_mem (List.mem_dedup.mpr hx))
    have hmax : ((1 : ℚ) ⊔ (a.dedup.length : ℚ)) = (a.dedup.length : ℚ) :=
      max_eq_right (by exact_mod_cast hlenpos)
    rw [hmax]
    exact div_self (by positivity)

/-- Witness for C3 at a concrete two-candidate search: the code pipeline
coincides with the spec pipeline, at most two matches return, and a fully
contained table set receives overlap ratio 1. -/
theorem history_search_scoring_witness :
    historySearch ["h1", "h2"] [3/10, 1/10]
        [("h1", sampleRow1), ("h2", sampleRow2)]
        ["public.users", "public.orders"] 2 (3/20) =
      specHistorySearch ["h1", "h2"] [3/10, 1/10]
        [("h1", sampleRow1), ("h2", sampleRow2)]
        ["public.users", "public.orders"] 2 (3/20) ∧
    (historySearch ["h1", "h2"] [3/10, 1/10]
        [("h1", sampleRow1), ("h2", sampleRow2)]
        ["public.users", "public.orders"] 2 (3/20)).length ≤ 2 ∧
    _tables_overlap (some ["public.users"]) ["public.users", "public.orders"] = 1 := by
  have h := history_search_scoring ["h1", "h2"] [3/10, 1/10]
    [("h1", sampleRow1), ("h2", sampleRow2)]
    ["public.users", "public.orders"] 2 (3/20)
  exact ⟨h.1, h.2.1,
    h.2.2.2 ["public.users"] ["public.users", "public.orders"]
      (by decide) (by decide)⟩
